import Mathlib

/-!
# Verification of the ap-games board-game engine

A shallow embedding, in Lean 4, of the core of the `ap_games` Python
package: the square gameboard (`ap_games/gameboard/gameboard.py`), the
two rule engines (`ap_games/game/tictactoe.py`, `ap_games/game/reversi.py`),
the move-cache eviction of `ap_games/game/game_base.py`, and the minimax
search of `ap_games/player/ai_player.py`.

Modelling conventions:

* Python labels (cell marks) are Lean `String`s; the empty mark is `" "`
  and the undefined sentinel mark is `""`, exactly as in the source.
* A Python `dict` is an insertion-ordered association list; assignment
  updates an existing key in place (keeping its position) and appends a
  fresh key at the end, matching CPython semantics.
* The per-board `_offset_directions_cache` dict is mutable state that a
  board *aliases* (a copy shares the same dict object).  We model the
  object store explicitly: a `Heap` is the list of all allocated cache
  dicts, and each board holds the index (`cacheRef`) of its cache.
* Machine integers are `Int`/`Nat`; Python integers are unbounded so no
  modular wraparound is needed.
* Terminal colouring (`_colors`, `_paint`, `colorized`) is pure rendering
  state that no query of the data model reads back; it is omitted.
-/

namespace ApGames

/-- Cell labels, as Python strings: `"X"`, `"O"`, the empty mark `" "`,
and the undefined sentinel `""`. -/
abbrev Label := String

/-- `EMPTY = " "` from `ap_types.py`. -/
def EMPTY : Label := " "

/-- `Coordinate(x, y)` namedtuple: x is the column number counted from the
left, y the row number counted from the bottom, both 1-based on-board. -/
structure Coordinate where
  x : Int
  y : Int
deriving DecidableEq, Repr

/-- `Cell(coordinate, label)` namedtuple. -/
structure Cell where
  coordinate : Coordinate
  label : Label
deriving DecidableEq, Repr

/-- `GameStatus(active, message, must_skip)` namedtuple.  The two-field
variant used by TicTacToe corresponds to `must_skip = false`. -/
structure GameStatus where
  active : Bool
  message : String
  must_skip : Bool
deriving DecidableEq, Repr

/-- `SquareGameboard.undefined_coordinate = Coordinate(0, 0)`. -/
def undefinedCoordinate : Coordinate := ⟨0, 0⟩

/-- `SquareGameboard.undefined_cell = Cell(Coordinate(0, 0), "")`. -/
def undefinedCell : Cell := ⟨undefinedCoordinate, ""⟩

/-- `SquareGameboard._directions`: the eight unit directions, in source
order (top, right-top, right, right-bottom, bottom, left-bottom, left,
left-top). -/
def directions : List Coordinate :=
  [⟨0, 1⟩, ⟨1, 1⟩, ⟨1, 0⟩, ⟨1, -1⟩, ⟨0, -1⟩, ⟨-1, -1⟩, ⟨-1, 0⟩, ⟨-1, 1⟩]

/-! ## Python dict semantics

`SquareGameboard._cells` is a `Dict[Tuple[int, int], Cell]` whose key is
always the cell's own coordinate, so we store plain `Cell` lists keyed by
`Cell.coordinate`. -/

/-- `d.get(k)`: first (and, for dict-built lists, only) entry with the key. -/
def dictGet (cells : List Cell) (k : Coordinate) : Option Cell :=
  match cells with
  | [] => none
  | c :: rest => if c.coordinate = k then some c else dictGet rest k

/-- `d[k] = Cell(k, label)`: update in place if the key exists, else append. -/
def dictSet (cells : List Cell) (k : Coordinate) (lbl : Label) : List Cell :=
  match cells with
  | [] => [⟨k, lbl⟩]
  | c :: rest =>
    if c.coordinate = k then ⟨k, lbl⟩ :: rest else c :: dictSet rest k lbl

/-- `SquareGameboard._index_to_coordinate(index)`:
`x, y = divmod(index, size); return Coordinate(y + 1, size - x)`.
(The `@memoized_method("_size")` wrapper caches a pure function of the
size and the index, so it is modelled by the function itself.) -/
def indexToCoordinate (size : Nat) (index : Nat) : Coordinate :=
  ⟨(index % size : Nat) + 1, (size - index / size : Nat)⟩

/-- The inverse index formula stated by the specification:
`index = (column - 1) + S * (S - row)`. -/
def indexOfCoordinate (size : Nat) (c : Coordinate) : Int :=
  (c.x - 1) + size * (size - c.y)

/-- The `__init__` loop
`for index, label in enumerate(surface): self._cells[x, y] = Cell(...)`,
starting from the empty dict. -/
def initCells (size : Nat) (surface : List Label) : List Cell :=
  surface.enum.foldl (fun cells p => dictSet cells (indexToCoordinate size p.1) p.2) []

/-- A cache dict `Dict[Coordinate, Tuple[Coordinate, ...]]` of
`offset_directions` results, insertion ordered. -/
abbrev DirCache := List (Coordinate × List Coordinate)

/-- Lookup in a `DirCache`. -/
def cacheGet (cache : DirCache) (k : Coordinate) : Option (List Coordinate) :=
  match cache with
  | [] => none
  | e :: rest => if e.1 = k then some e.2 else cacheGet rest k

/-- Assignment into a `DirCache` (dict update-or-append). -/
def cacheSet (cache : DirCache) (k : Coordinate) (v : List Coordinate) : DirCache :=
  match cache with
  | [] => [(k, v)]
  | e :: rest => if e.1 = k then (k, v) :: rest else e :: cacheSet rest k v

/-- The store of all allocated `_offset_directions_cache` dict objects;
a board refers to its cache by index.  Sharing the index models Python
aliasing of the dict object. -/
abbrev Heap := List DirCache

/-- `SquareGameboard`: size, the `_cells` dict, the `gap`/`axis`
construction parameters, and the reference to its
`_offset_directions_cache` dict in the heap. -/
structure Board where
  size : Nat
  cells : List Cell
  gap : String
  axis : Bool
  cacheRef : Nat
deriving DecidableEq, Repr

/-- `SquareGameboard.__init__`: size is `int(len(surface) ** 0.5)` (exact
for the lengths at hand, so `Nat.sqrt`), must lie in `[2, 9]` and square
to the length; the constructor allocates a fresh empty cache dict. -/
def mkBoard (surface : List Label) (gap : String) (axis : Bool) (heap : Heap) :
    Except String (Board × Heap) :=
  let size := Nat.sqrt surface.length
  if size ≤ 1 ∨ size > 9 then
    .error "The size of the gameboard must be between 2 and 9!"
  else if size * size ≠ surface.length then
    .error "The gameboard must be square!"
  else
    .ok (⟨size, initCells size surface, gap, axis, heap.length⟩, heap ++ [[]])

/-- `SquareGameboard._surface`: the labels joined in dict order. -/
def surfaceOf (b : Board) : List Label :=
  b.cells.map (·.label)

/-- `SquareGameboard.count(label)`. -/
def countLabel (b : Board) (lbl : Label) : Nat :=
  (b.cells.map (·.label)).count lbl

/-- `SquareGameboard.rows`: for each row from the top
(`reversed(range(1, size + 1))`), the cells of the dict whose coordinate
has that y, in dict order. -/
def rows (b : Board) : List (List Cell) :=
  ((List.range' 1 b.size).reverse).map fun r =>
    b.cells.filter (fun cell => cell.coordinate.y = ((r : Nat) : Int))

/-- `SquareGameboard.columns`: for each column `1..size`, the cells of the
dict whose coordinate has that x, in dict order. -/
def columns (b : Board) : List (List Cell) :=
  (List.range' 1 b.size).map fun c =>
    b.cells.filter (fun cell => cell.coordinate.x = ((c : Nat) : Int))

/-- `SquareGameboard.diagonals`: the main diagonal
`_cells[num + 1, size - num]` for `num in range(size)` and the reverse
diagonal `_cells[num, num]` for `num in 1..size` (direct dict indexing;
present on well-formed boards, modelled with the sentinel default). -/
def diagonals (b : Board) : List (List Cell) :=
  [(List.range b.size).map fun n =>
      (dictGet b.cells
        ⟨((n : Nat) : Int) + 1, (b.size : Int) - ((n : Nat) : Int)⟩).getD
        undefinedCell,
   (List.range' 1 b.size).map fun n =>
      (dictGet b.cells ⟨((n : Nat) : Int), ((n : Nat) : Int)⟩).getD
        undefinedCell]

/-- `SquareGameboard.all_sides = rows + columns + diagonals`. -/
def allSides (b : Board) : List (List Cell) :=
  rows b ++ columns b ++ diagonals b

/-- `SquareGameboard.available_steps`: coordinates of all `EMPTY` cells. -/
def availableSteps (b : Board) : List Coordinate :=
  (b.cells.filter (fun cell => cell.label = EMPTY)).map (·.coordinate)

/-- `SquareGameboard.get_offset_cell(coordinate, shift)`:
`_cells.get((x + dx, y + dy), undefined_cell)`. -/
def getOffsetCell (b : Board) (c shift : Coordinate) : Cell :=
  (dictGet b.cells ⟨c.x + shift.x, c.y + shift.y⟩).getD undefinedCell

/-- `SquareGameboard._offset_directions(coordinate)`: the unit directions
whose immediate neighbour is a key of `_cells`.  (Its
`@memoized_method("_size")` wrapper caches a value that, on well-formed
boards, is a pure function of the size, so the function itself is the
model.) -/
def offsetDirectionsPure (b : Board) (c : Coordinate) : List Coordinate :=
  directions.filter fun shift =>
    (dictGet b.cells ⟨c.x + shift.x, c.y + shift.y⟩).isSome

/-- `SquareGameboard.offset_directions(coordinate, exclude_labels)`:
first consults `_offset_directions_cache` **by coordinate alone**; on a
miss it raises for a coordinate that is not a `_cells` key, otherwise
filters the neighbour directions by `exclude_labels` (when non-empty) and
stores the result in the cache.  Returns the result together with the
updated heap. -/
def offsetDirections (b : Board) (c : Coordinate) (excludeLabels : List Label)
    (heap : Heap) : Except String (List Coordinate × Heap) :=
  let cache := heap.getD b.cacheRef []
  match cacheGet cache c with
  | some result => .ok (result, heap)
  | none =>
    if (dictGet b.cells c).isNone then
      -- Python: `raise ValueError(f"The {coordinate}  out of range!")`
      .error "out of range"
    else
      let result :=
        if excludeLabels ≠ [] then
          (offsetDirectionsPure b c).filter fun direction =>
            ((dictGet b.cells ⟨c.x + direction.x, c.y + direction.y⟩).getD
                undefinedCell).label ∉ excludeLabels
        else
          offsetDirectionsPure b c
      .ok (result, heap.set b.cacheRef (cacheSet cache c result))

/-- `SquareGameboard.label(coordinate, label, force=False)` on the cells
dict alone: sets the cell when `force` or the present cell (defaulting to
the undefined sentinel) is empty, returning the count of labelled cells. -/
def labelCells (cells : List Cell) (c : Coordinate) (lbl : Label) (force : Bool) :
    Nat × List Cell :=
  if force || ((dictGet cells c).getD undefinedCell).label = EMPTY then
    (1, dictSet cells c lbl)
  else
    (0, cells)

/-- `SquareGameboard.label` with its cache effect: a successful labelling
rebinds `_offset_directions_cache` to a freshly allocated empty dict. -/
def labelBoard (b : Board) (c : Coordinate) (lbl : Label) (force : Bool)
    (heap : Heap) : Nat × Board × Heap :=
  match labelCells b.cells c lbl force with
  | (0, _) => (0, b, heap)
  | (n, cells') => (n, { b with cells := cells', cacheRef := heap.length }, heap ++ [[]])

/-- `SquareGameboard.copy`: a new board built from `_surface`, `gap` and
`axis` (hence a fresh `_cells` dict), whose `_offset_directions_cache`
attribute is then assigned the *same* dict object as the original's
(`sg._offset_directions_cache = self._offset_directions_cache`).  The
constructor-allocated dict stays in the heap, unreferenced. -/
def copyBoard (b : Board) (heap : Heap) : Board × Heap :=
  ({ b with cells := initCells b.size (surfaceOf b), cacheRef := b.cacheRef },
   heap ++ [[]])

/-- In-range predicate: the coordinate lies in `[1, S]²`. -/
def inRange (size : Nat) (c : Coordinate) : Prop :=
  1 ≤ c.x ∧ c.x ≤ size ∧ 1 ≤ c.y ∧ c.y ≤ size

instance (size : Nat) (c : Coordinate) : Decidable (inRange size c) := by
  unfold inRange; infer_instance

end ApGames

namespace ApGames

/-! ## Basic facts about the cells dictionary -/

theorem dictGet_eq_none_iff {cells : List Cell} {k : Coordinate} :
    dictGet cells k = none ↔ ∀ cell ∈ cells, cell.coordinate ≠ k := by
  induction cells with
  | nil => simp [dictGet]
  | cons c rest ih =>
    by_cases h : c.coordinate = k <;> simp [dictGet, h, ih]

theorem dictGet_eq_some_of_mem {cells : List Cell} {cell : Cell}
    (hnd : cells.Pairwise (fun a b => a.coordinate ≠ b.coordinate))
    (hmem : cell ∈ cells) :
    dictGet cells cell.coordinate = some cell := by
  induction cells with
  | nil => simp at hmem
  | cons c rest ih =>
    rcases List.mem_cons.mp hmem with h | h
    · simp [dictGet, h]
    · have hne : c.coordinate ≠ cell.coordinate :=
        (List.pairwise_cons.mp hnd).1 cell h
      simp [dictGet, hne, ih (List.pairwise_cons.mp hnd).2 h]

theorem dictSet_of_fresh {cells : List Cell} {k : Coordinate} {lbl : Label}
    (h : ∀ cell ∈ cells, cell.coordinate ≠ k) :
    dictSet cells k lbl = cells ++ [⟨k, lbl⟩] := by
  induction cells with
  | nil => simp [dictSet]
  | cons c rest ih =>
    have hc : c.coordinate ≠ k := h c (by simp)
    simp [dictSet, hc, ih (fun cell hm => h cell (by simp [hm]))]

theorem indexToCoordinate_inj {S i j : Nat} (hS : 0 < S)
    (hi : i < S * S) (hj : j < S * S)
    (h : indexToCoordinate S i = indexToCoordinate S j) : i = j := by
  unfold indexToCoordinate at h
  rw [Coordinate.mk.injEq] at h
  obtain ⟨hx, hy⟩ := h
  have hdi : i / S < S := Nat.div_lt_of_lt_mul hi
  have hdj : j / S < S := Nat.div_lt_of_lt_mul hj
  have hy' : S - i / S = S - j / S := by exact_mod_cast hy
  have hd : i / S = j / S := by omega
  have hx' : i % S = j % S := by
    have : ((i % S : Nat) : Int) = ((j % S : Nat) : Int) := by
      omega
    exact_mod_cast this
  have hmi := Nat.div_add_mod i S
  have hmj := Nat.div_add_mod j S
  rw [hd] at hmi
  omega

/-- The fold of dict assignments over pairwise-fresh keys appends them in
order. -/
theorem foldl_dictSet_fresh (f : Nat → Coordinate) :
    ∀ (l : List (Nat × Label)) (acc : List Cell),
    (∀ p ∈ l, ∀ cell ∈ acc, cell.coordinate ≠ f p.1) →
    l.Pairwise (fun p q => f p.1 ≠ f q.1) →
    l.foldl (fun cells p => dictSet cells (f p.1) p.2) acc
      = acc ++ l.map (fun p => ⟨f p.1, p.2⟩) := by
  intro l
  induction l with
  | nil => intro acc _ _; simp
  | cons p rest ih =>
    intro acc hacc hpw
    have hfresh : ∀ cell ∈ acc, cell.coordinate ≠ f p.1 :=
      fun cell hc => hacc p (by simp) cell hc
    have hstep : dictSet acc (f p.1) p.2 = acc ++ [⟨f p.1, p.2⟩] :=
      dictSet_of_fresh hfresh
    have hrest : ∀ q ∈ rest, ∀ cell ∈ acc ++ [(⟨f p.1, p.2⟩ : Cell)],
        cell.coordinate ≠ f q.1 := by
      intro q hq cell hc
      rcases List.mem_append.mp hc with h | h
      · exact hacc q (by simp [hq]) cell h
      · have : cell = (⟨f p.1, p.2⟩ : Cell) := by simpa using h
        subst this
        exact fun hcontra => ((List.pairwise_cons.mp hpw).1 q hq) hcontra
    calc (p :: rest).foldl (fun cells q => dictSet cells (f q.1) q.2) acc
        = rest.foldl (fun cells q => dictSet cells (f q.1) q.2)
            (acc ++ [⟨f p.1, p.2⟩]) := by rw [List.foldl_cons, hstep]
      _ = (acc ++ [⟨f p.1, p.2⟩]) ++ rest.map (fun q => ⟨f q.1, q.2⟩) :=
          ih _ hrest (List.pairwise_cons.mp hpw).2
      _ = acc ++ (p :: rest).map (fun q => ⟨f q.1, q.2⟩) := by simp

/-- On a square surface the constructor's dict build is just the indexed
map of the surface. -/
theorem initCells_eq_map {S : Nat} (surface : List Label) (hS : 0 < S)
    (hlen : surface.length = S * S) :
    initCells S surface
      = surface.enum.map (fun p => (⟨indexToCoordinate S p.1, p.2⟩ : Cell)) := by
  unfold initCells
  refine foldl_dictSet_fresh (indexToCoordinate S) surface.enum [] (by simp) ?_
  have hnd : (surface.enum.map Prod.fst).Pairwise (· ≠ ·) := by
    rw [List.enum_map_fst]
    exact List.nodup_range _
  have hpw : surface.enum.Pairwise (fun p q => p.1 ≠ q.1) :=
    (List.pairwise_map).mp hnd
  refine hpw.imp_of_mem ?_
  intro p q hp hq hne
  intro hcontra
  have hip : p.1 < surface.length := by
    have := List.fst_lt_of_mem_enum hp
    exact this
  have hiq : q.1 < surface.length := by
    have := List.fst_lt_of_mem_enum hq
    exact this
  exact hne (indexToCoordinate_inj hS (hlen ▸ hip) (hlen ▸ hiq) hcontra)

end ApGames

namespace ApGames

/-- All on-board coordinates, in construction order. -/
def allCoordinates (S : Nat) : List Coordinate :=
  (List.range (S * S)).map (indexToCoordinate S)

theorem indexToCoordinate_inRange {S i : Nat} (hS : 0 < S) (hi : i < S * S) :
    inRange S (indexToCoordinate S i) := by
  have hdi : i / S < S := Nat.div_lt_of_lt_mul hi
  have hri : i % S < S := Nat.mod_lt _ hS
  unfold inRange indexToCoordinate
  dsimp only
  generalize i % S = a at hri ⊢
  generalize i / S = b at hdi ⊢
  refine ⟨?_, ?_, ?_, ?_⟩ <;> omega

theorem enum_coord_pairwise {S : Nat} (surface : List Label) (hS : 0 < S)
    (hlen : surface.length = S * S) :
    surface.enum.Pairwise
      (fun p q => indexToCoordinate S p.1 ≠ indexToCoordinate S q.1) := by
  have hnd : (surface.enum.map Prod.fst).Pairwise (· ≠ ·) := by
    rw [List.enum_map_fst]
    exact List.nodup_range _
  have hpw : surface.enum.Pairwise (fun p q => p.1 ≠ q.1) :=
    (List.pairwise_map).mp hnd
  refine hpw.imp_of_mem ?_
  intro p q hp hq hne hcontra
  have hip : p.1 < surface.length := List.fst_lt_of_mem_enum hp
  have hiq : q.1 < surface.length := List.fst_lt_of_mem_enum hq
  exact hne (indexToCoordinate_inj hS (hlen ▸ hip) (hlen ▸ hiq) hcontra)

theorem initCells_pairwise {S : Nat} (surface : List Label) (hS : 0 < S)
    (hlen : surface.length = S * S) :
    (initCells S surface).Pairwise (fun a b => a.coordinate ≠ b.coordinate) := by
  rw [initCells_eq_map surface hS hlen]
  exact (List.pairwise_map).mpr (enum_coord_pairwise surface hS hlen)

theorem initCells_map_coordinate {S : Nat} (surface : List Label) (hS : 0 < S)
    (hlen : surface.length = S * S) :
    (initCells S surface).map (·.coordinate) = allCoordinates S := by
  rw [initCells_eq_map surface hS hlen]
  rw [List.map_map]
  have : ((·.coordinate) ∘ fun p : Nat × Label => (⟨indexToCoordinate S p.1, p.2⟩ : Cell))
      = (indexToCoordinate S) ∘ Prod.fst := rfl
  rw [this, ← List.map_map, List.enum_map_fst, hlen]
  rfl

theorem initCells_length {S : Nat} (surface : List Label) (hS : 0 < S)
    (hlen : surface.length = S * S) :
    (initCells S surface).length = S * S := by
  have := congrArg List.length (initCells_map_coordinate surface hS hlen)
  simpa [allCoordinates] using this

/-- Arithmetic companion of the coordinate↔index bijection: the index of
an in-range coordinate. -/
theorem indexToCoordinate_of_colrow {S col row : Nat} (hS : 0 < S)
    (hcol1 : 1 ≤ col) (hcolS : col ≤ S) (hrow1 : 1 ≤ row) (hrowS : row ≤ S) :
    indexToCoordinate S ((S - row) * S + (col - 1)) = ⟨(col : Int), (row : Int)⟩ ∧
    (S - row) * S + (col - 1) < S * S := by
  have hmod : ((S - row) * S + (col - 1)) % S = col - 1 := by
    rw [Nat.mul_comm (S - row) S, Nat.mul_add_mod]
    exact Nat.mod_eq_of_lt (by omega)
  have hdiv : ((S - row) * S + (col - 1)) / S = S - row := by
    rw [Nat.mul_comm (S - row) S, Nat.mul_add_div hS, Nat.div_eq_of_lt (by omega)]
    omega
  constructor
  · unfold indexToCoordinate
    rw [hmod, hdiv]
    simp only [Coordinate.mk.injEq]
    exact ⟨by omega, by omega⟩
  · calc (S - row) * S + (col - 1) < (S - row) * S + S := by omega
      _ = (S - row + 1) * S := by ring
      _ ≤ S * S := Nat.mul_le_mul_right S (by omega)

theorem dictGet_initCells_inRange {S : Nat} (surface : List Label) (hS : 0 < S)
    (hlen : surface.length = S * S) {col row : Nat}
    (hcol1 : 1 ≤ col) (hcolS : col ≤ S) (hrow1 : 1 ≤ row) (hrowS : row ≤ S) :
    dictGet (initCells S surface) ⟨(col : Int), (row : Int)⟩
      = some ⟨⟨(col : Int), (row : Int)⟩,
          surface.getD ((S - row) * S + (col - 1)) ""⟩ := by
  obtain ⟨hcoord, hlt⟩ := indexToCoordinate_of_colrow hS hcol1 hcolS hrow1 hrowS
  set i := (S - row) * S + (col - 1) with hi
  have hilen : i < surface.length := by omega
  have hmem : (⟨⟨(col : Int), (row : Int)⟩, surface.getD i ""⟩ : Cell)
      ∈ initCells S surface := by
    rw [initCells_eq_map surface hS hlen]
    refine List.mem_map.mpr ⟨(i, surface.getD i ""), ?_, by rw [hcoord]⟩
    rw [List.mk_mem_enum_iff_getElem?, List.getElem?_eq_getElem hilen,
      List.getD_eq_getElem _ _ hilen]
  have := dictGet_eq_some_of_mem (initCells_pairwise surface hS hlen) hmem
  exact this

theorem dictGet_initCells_eq_none {S : Nat} (surface : List Label) (hS : 0 < S)
    (hlen : surface.length = S * S) {c : Coordinate} (hc : ¬ inRange S c) :
    dictGet (initCells S surface) c = none := by
  rw [dictGet_eq_none_iff]
  intro cell hmem hcontra
  rw [initCells_eq_map surface hS hlen] at hmem
  obtain ⟨p, hp, hpc⟩ := List.mem_map.mp hmem
  have hip : p.1 < surface.length := List.fst_lt_of_mem_enum hp
  have : inRange S cell.coordinate := by
    rw [← hpc]
    exact indexToCoordinate_inRange hS (hlen ▸ hip)
  exact hc (hcontra ▸ this)

/-- Every key of the constructed dict is in range. -/
theorem initCells_coords_inRange {S : Nat} (surface : List Label) (hS : 0 < S)
    (hlen : surface.length = S * S) :
    ∀ cell ∈ initCells S surface, inRange S cell.coordinate := by
  intro cell hmem
  rw [initCells_eq_map surface hS hlen] at hmem
  obtain ⟨p, hp, hpc⟩ := List.mem_map.mp hmem
  have hip : p.1 < surface.length := List.fst_lt_of_mem_enum hp
  rw [← hpc]
  exact indexToCoordinate_inRange hS (hlen ▸ hip)

/-- **C9.** For every board size `S ∈ [2,9]` and every index `i ∈ [0, S²)`,
the index-to-coordinate conversion returns column `(i mod S) + 1` and row
`S − (i div S)`, and the inverse formula
`index = (column − 1) + S × (S − row)` recovers `i` exactly. -/
theorem c9_index_coordinate_round_trip (S i : Nat)
    (h2 : 2 ≤ S) (h9 : S ≤ 9) (hi : i < S * S) :
    indexToCoordinate S i = ⟨((i % S : Nat) : Int) + 1, ((S - i / S : Nat) : Int)⟩ ∧
    indexOfCoordinate S (indexToCoordinate S i) = i := by
  refine ⟨rfl, ?_⟩
  unfold indexOfCoordinate indexToCoordinate
  have hdi : i / S < S := Nat.div_lt_of_lt_mul hi
  have h1 : ((S : Int) - ((S - i / S : Nat) : Int)) = ((i / S : Nat) : Int) := by
    have : (((S - i / S : Nat)) : Int) = (S : Int) - ((i / S : Nat) : Int) := by
      push_cast [Nat.cast_sub hdi.le]
      ring
    rw [this]
    ring
  have hcast : ((S : Int)) * ((i / S : Nat) : Int) + ((i % S : Nat) : Int) = (i : Int) := by
    exact_mod_cast congrArg (Nat.cast : Nat → Int) (Nat.div_add_mod i S)
  simp only [h1]
  linarith [hcast]

/-- Witness for C9 at `S = 3`, `i = 5`. -/
theorem c9_index_coordinate_round_trip_witness :
    (2 ≤ 3 ∧ 3 ≤ 9 ∧ 5 < 3 * 3) ∧
    indexOfCoordinate 3 (indexToCoordinate 3 5) = 5 :=
  ⟨⟨by decide, by decide, by decide⟩,
   (c9_index_coordinate_round_trip 3 5 (by decide) (by decide) (by decide)).2⟩

end ApGames

namespace ApGames

/-! ## Key-set preservation under `label` (claim C10) -/

theorem dictGet_isSome_iff {cells : List Cell} {k : Coordinate} :
    (dictGet cells k).isSome ↔ k ∈ cells.map (·.coordinate) := by
  induction cells with
  | nil => simp [dictGet]
  | cons c rest ih =>
    by_cases h : c.coordinate = k
    · simp [dictGet, h]
    · have h' : ¬ (k = c.coordinate) := fun hk => h hk.symm
      simp [dictGet, h, h', ih]

theorem dictSet_map_coordinate {cells : List Cell} {k : Coordinate} {lbl : Label}
    (h : k ∈ cells.map (·.coordinate)) :
    (dictSet cells k lbl).map (·.coordinate) = cells.map (·.coordinate) := by
  induction cells with
  | nil => simp at h
  | cons c rest ih =>
    by_cases hc : c.coordinate = k
    · simp [dictSet, hc]
    · have : k ∈ rest.map (·.coordinate) := by
        rcases List.mem_map.mp h with ⟨cell, hcell, hck⟩
        rcases List.mem_cons.mp hcell with h1 | h1
        · exact absurd (h1 ▸ hck) hc
        · exact List.mem_map.mpr ⟨cell, h1, hck⟩
      simp [dictSet, hc, ih this]

theorem labelCells_map_coordinate {cells : List Cell} {k : Coordinate}
    {lbl : Label} {force : Bool}
    (h : force = true → k ∈ cells.map (·.coordinate)) :
    ((labelCells cells k lbl force).2).map (·.coordinate)
      = cells.map (·.coordinate) := by
  unfold labelCells
  split
  · rename_i hcond
    have hmem : k ∈ cells.map (·.coordinate) := by
      rw [Bool.or_eq_true] at hcond
      rcases hcond with hf | hl
      · exact h hf
      · have hl' : ((dictGet cells k).getD undefinedCell).label = EMPTY :=
          of_decide_eq_true hl
        cases hget : dictGet cells k with
        | none =>
          rw [hget] at hl'
          exact absurd hl' (by simp [undefinedCell, EMPTY])
        | some cell =>
          rw [← dictGet_isSome_iff, hget]
          rfl
    exact dictSet_map_coordinate hmem
  · rfl

/-- A sequence of `label` calls at the cells-dict level. -/
def applyLabels (ops : List (Coordinate × Label × Bool)) (cells : List Cell) :
    List Cell :=
  ops.foldl (fun cs op => (labelCells cs op.1 op.2.1 op.2.2).2) cells

/-- A sequence of `label` calls at the board/heap level. -/
def applyLabelsBoard (ops : List (Coordinate × Label × Bool)) (b : Board)
    (heap : Heap) : Board × Heap :=
  ops.foldl (fun bh op =>
    let r := labelBoard bh.1 op.1 op.2.1 op.2.2 bh.2
    (r.2.1, r.2.2)) (b, heap)

theorem labelCells_snd_of_zero {cells : List Cell} {k : Coordinate}
    {lbl : Label} {force : Bool} {cells' : List Cell}
    (h : labelCells cells k lbl force = (0, cells')) : cells' = cells := by
  unfold labelCells at h
  split at h
  · exact absurd (congrArg Prod.fst h) (by simp)
  · exact (congrArg Prod.snd h).symm

theorem labelBoard_cells (b : Board) (c : Coordinate) (lbl : Label)
    (force : Bool) (heap : Heap) :
    (labelBoard b c lbl force heap).2.1.cells = (labelCells b.cells c lbl force).2 := by
  unfold labelBoard
  rcases h : labelCells b.cells c lbl force with ⟨n, cells'⟩
  cases n with
  | zero => exact (labelCells_snd_of_zero h).symm
  | succ m => rfl

theorem applyLabelsBoard_cells (ops : List (Coordinate × Label × Bool)) :
    ∀ (b : Board) (heap : Heap),
    (applyLabelsBoard ops b heap).1.cells = applyLabels ops b.cells := by
  induction ops with
  | nil => intro b heap; rfl
  | cons op rest ih =>
    intro b heap
    unfold applyLabelsBoard applyLabels
    rw [List.foldl_cons, List.foldl_cons]
    have hstep := labelBoard_cells b op.1 op.2.1 op.2.2 heap
    have := ih (labelBoard b op.1 op.2.1 op.2.2 heap).2.1
      (labelBoard b op.1 op.2.1 op.2.2 heap).2.2
    unfold applyLabelsBoard applyLabels at this
    rw [this, hstep]

theorem mem_allCoordinates {S : Nat} (hS : 0 < S) (c : Coordinate) :
    c ∈ allCoordinates S ↔ inRange S c := by
  constructor
  · intro h
    rcases List.mem_map.mp h with ⟨i, hi, hic⟩
    exact hic ▸ indexToCoordinate_inRange hS (List.mem_range.mp hi)
  · intro h
    obtain ⟨h1, h2, h3, h4⟩ := h
    have hx0 : c.x.toNat ≤ S := by omega
    have hy0 : c.y.toNat ≤ S := by omega
    have hx1 : 1 ≤ c.x.toNat := by omega
    have hy1 : 1 ≤ c.y.toNat := by omega
    have hc : c = ⟨(c.x.toNat : Int), (c.y.toNat : Int)⟩ := by
      have hx : c.x = (c.x.toNat : Int) := by omega
      have hy : c.y = (c.y.toNat : Int) := by omega
      calc c = ⟨c.x, c.y⟩ := rfl
        _ = ⟨(c.x.toNat : Int), (c.y.toNat : Int)⟩ := by rw [← hx, ← hy]
    obtain ⟨hcoord, hlt⟩ := indexToCoordinate_of_colrow hS hx1 hx0 hy1 hy0
    refine List.mem_map.mpr ⟨(S - c.y.toNat) * S + (c.x.toNat - 1),
      List.mem_range.mpr hlt, ?_⟩
    rw [hcoord, ← hc]

theorem applyLabels_map_coordinate {S : Nat} (hS : 0 < S)
    (ops : List (Coordinate × Label × Bool)) :
    ∀ (cells : List Cell),
    cells.map (·.coordinate) = allCoordinates S →
    (∀ op ∈ ops, op.2.2 = true → inRange S op.1) →
    (applyLabels ops cells).map (·.coordinate) = allCoordinates S := by
  induction ops with
  | nil => intro cells hkeys _; exact hkeys
  | cons op rest ih =>
    intro cells hkeys hops
    unfold applyLabels
    rw [List.foldl_cons]
    have hstep : ((labelCells cells op.1 op.2.1 op.2.2).2).map (·.coordinate)
        = cells.map (·.coordinate) := by
      refine labelCells_map_coordinate ?_
      intro hforce
      rw [hkeys]
      exact (mem_allCoordinates hS op.1).mpr (hops op (by simp) hforce)
    exact ih _ (hstep.trans hkeys) (fun q hq => hops q (by simp [hq]))

/-- **C10 (amended).** For a board constructed with size `S`, after any
sequence of `label` calls in which every *forced* call uses an in-range
coordinate (any coordinate is allowed when `force` is false, and any mark
always), the board still has exactly `S²` cells, one for each coordinate
of `[1,S]²` and no cell at any other coordinate.  (The unamended claim,
which also allows forced calls at out-of-range coordinates, is refuted by
`c10_board_gains_extra_cell`.) -/
theorem c10_label_preserves_cells (S : Nat) (surface : List Label)
    (gap : String) (axis : Bool) (ref : Nat) (heap : Heap)
    (ops : List (Coordinate × Label × Bool))
    (h2 : 2 ≤ S) (hlen : surface.length = S * S)
    (hops : ∀ op ∈ ops, op.2.2 = true → inRange S op.1) :
    let b := Board.mk S (initCells S surface) gap axis ref
    let result := (applyLabelsBoard ops b heap).1
    result.cells.map (·.coordinate) = allCoordinates S ∧
    result.cells.length = S * S ∧
    ∀ c : Coordinate, (dictGet result.cells c).isSome ↔ inRange S c := by
  intro b result
  have hS : 0 < S := by omega
  have hmap : result.cells.map (·.coordinate) = allCoordinates S := by
    show (applyLabelsBoard ops b heap).1.cells.map (·.coordinate) = allCoordinates S
    rw [applyLabelsBoard_cells]
    exact applyLabels_map_coordinate hS ops b.cells
      (initCells_map_coordinate surface hS hlen) hops
  refine ⟨hmap, ?_, ?_⟩
  · have := congrArg List.length hmap
    simpa [allCoordinates] using this
  · intro c
    rw [dictGet_isSome_iff, hmap]
    exact mem_allCoordinates hS c

/-- Witness for C10: a 2×2 board, one in-range forced call and one
out-of-range unforced call keep the cell set intact. -/
theorem c10_label_preserves_cells_witness :
    (∀ op ∈ [((⟨1, 1⟩ : Coordinate), "X", true), ((⟨5, 5⟩ : Coordinate), "O", false)],
        op.2.2 = true → inRange 2 op.1) ∧
    (applyLabelsBoard [(⟨1, 1⟩, "X", true), (⟨5, 5⟩, "O", false)]
        (Board.mk 2 (initCells 2 [" ", " ", " ", " "]) " " false 0)
        [[]]).1.cells.length = 2 * 2 :=
  ⟨by decide,
   (c10_label_preserves_cells 2 [" ", " ", " ", " "] " " false 0 [[]]
      [(⟨1, 1⟩, "X", true), (⟨5, 5⟩, "O", false)]
      (by decide) (by decide) (by decide)).2.1⟩

/-- **C10, counterexample to the unamended claim.**  A forced `label` call
at the out-of-range coordinate `(0, 0)` inserts a fifth cell into a 2×2
board: the invariant "exactly `S²` cells, one per coordinate of `[1,S]²`"
is broken by the code. -/
theorem c10_board_gains_extra_cell :
    (labelBoard (Board.mk 2 (initCells 2 [" ", " ", " ", " "]) " " false 0)
        ⟨0, 0⟩ "X" true [[]]).2.1.cells.length = 5 ∧
    ¬ (labelBoard (Board.mk 2 (initCells 2 [" ", " ", " ", " "]) " " false 0)
        ⟨0, 0⟩ "X" true [[]]).2.1.cells.length = 2 * 2 := by
  constructor
  · decide
  · decide

end ApGames

namespace ApGames

/-! ## Out-of-range queries (claim C8) and the offset-directions memo
(claims C2, C5) -/

deriving instance DecidableEq for Except

theorem cacheGet_eq_none_iff {cache : DirCache} {k : Coordinate} :
    cacheGet cache k = none ↔ ∀ e ∈ cache, e.1 ≠ k := by
  induction cache with
  | nil => simp [cacheGet]
  | cons e rest ih =>
    by_cases h : e.1 = k <;> simp [cacheGet, h, ih]

/-- **C8 (amended).** For a board of size `S` and a coordinate outside
`[1,S]²`: the cell query `get_offset_cell` returns the sentinel undefined
cell, but `offset_directions` *raises* (`ValueError`, modelled as
`.error`) rather than returning a sentinel result — provided, as in every
reachable state, the memo holds only in-range coordinates.  (The
unamended claim, that `legal_directions` also returns a sentinel result
instead of raising, is refuted by `c8_offset_directions_raises`.) -/
theorem c8_out_of_range_queries (S : Nat) (surface : List Label)
    (gap : String) (axis : Bool) (ref : Nat) (heap : Heap)
    (h2 : 2 ≤ S) (hlen : surface.length = S * S)
    (c : Coordinate) (hc : ¬ inRange S c)
    (base shift : Coordinate) (hsum : c = ⟨base.x + shift.x, base.y + shift.y⟩)
    (excl : List Label)
    (hcache : ∀ e ∈ heap.getD ref [], inRange S e.1) :
    let b := Board.mk S (initCells S surface) gap axis ref
    getOffsetCell b base shift = undefinedCell ∧
    offsetDirections b c excl heap = .error "out of range" := by
  intro b
  have hS : 0 < S := by omega
  have hnone : dictGet b.cells c = none :=
    dictGet_initCells_eq_none surface hS hlen hc
  constructor
  · unfold getOffsetCell
    rw [← hsum, hnone]
    rfl
  · unfold offsetDirections
    have hmiss : cacheGet (heap.getD b.cacheRef []) c = none := by
      rw [cacheGet_eq_none_iff]
      intro e he hek
      exact hc (hek ▸ hcache e he)
    simp only [offsetDirections]
    rw [hmiss]
    simp [hnone]

/-- Witness for C8 at a fresh 2×2 board and the coordinate `(0, 0)`. -/
theorem c8_out_of_range_queries_witness :
    (¬ inRange 2 ⟨0, 0⟩ ∧
      (⟨0, 0⟩ : Coordinate) = ⟨(1 : Int) + (-1), (1 : Int) + (-1)⟩) ∧
    getOffsetCell (Board.mk 2 (initCells 2 [" ", " ", " ", " "]) " " false 0)
        ⟨1, 1⟩ ⟨-1, -1⟩ = undefinedCell ∧
    offsetDirections (Board.mk 2 (initCells 2 [" ", " ", " ", " "]) " " false 0)
        ⟨0, 0⟩ [] [[]] = .error "out of range" :=
  ⟨⟨by decide, by decide⟩,
   c8_out_of_range_queries 2 [" ", " ", " ", " "] " " false 0 [[]]
     (by decide) (by decide) ⟨0, 0⟩ (by decide) ⟨1, 1⟩ ⟨-1, -1⟩ (by decide) []
     (by intro e he; simp at he)⟩

/-- **C8, counterexample to the unamended claim.**  Querying
`offset_directions` at the out-of-range coordinate `(0, 0)` of a fresh
2×2 board raises (`.error`); it does not return a sentinel result. -/
theorem c8_offset_directions_raises :
    offsetDirections (Board.mk 2 (initCells 2 [" ", " ", " ", " "]) " " false 0)
        ⟨0, 0⟩ [] [[]] = .error "out of range" ∧
    ∀ result : List Coordinate × Heap,
      offsetDirections (Board.mk 2 (initCells 2 [" ", " ", " ", " "]) " " false 0)
        ⟨0, 0⟩ [] [[]] ≠ .ok result := by
  constructor
  · decide
  · intro result
    intro hcontra
    have : Except.error (ε := String) "out of range" = Except.ok result := by
      rw [← hcontra]
      decide
    exact absurd this (by simp)

/-- The specification's `legal_directions` (claim C2's wording): the
subset of the eight unit directions whose immediate neighbour lies on the
board and whose neighbour's mark is not in the exclude set. -/
def claimLegalDirections (b : Board) (c : Coordinate) (exclude : List Label) :
    List Coordinate :=
  directions.filter fun shift =>
    match dictGet b.cells ⟨c.x + shift.x, c.y + shift.y⟩ with
    | none => false
    | some cell => decide (cell.label ∉ exclude)

/-- **C2 (the code at the failing input).**  On the 2×2 board `"XO  "`,
a first `offset_directions` query at `(1, 1)` excluding `"X"` is memoized
under the coordinate alone; the second query at `(1, 1)` with *no*
exclusions returns the stale filtered tuple `[(1,1), (1,0)]` instead of
the full in-range set `[(0,1), (1,1), (1,0)]` required by the claim. -/
theorem c2_memo_ignores_exclude :
    offsetDirections (Board.mk 2 (initCells 2 ["X", "O", " ", " "]) " " false 0)
        ⟨1, 1⟩ ["X"] [[]]
      = .ok ([⟨1, 1⟩, ⟨1, 0⟩], [[(⟨1, 1⟩, [⟨1, 1⟩, ⟨1, 0⟩])]]) ∧
    offsetDirections (Board.mk 2 (initCells 2 ["X", "O", " ", " "]) " " false 0)
        ⟨1, 1⟩ [] [[(⟨1, 1⟩, [⟨1, 1⟩, ⟨1, 0⟩])]]
      = .ok ([⟨1, 1⟩, ⟨1, 0⟩], [[(⟨1, 1⟩, [⟨1, 1⟩, ⟨1, 0⟩])]]) ∧
    claimLegalDirections (Board.mk 2 (initCells 2 ["X", "O", " ", " "]) " " false 0)
        ⟨1, 1⟩ [] = [⟨0, 1⟩, ⟨1, 1⟩, ⟨1, 0⟩] ∧
    ([⟨1, 1⟩, ⟨1, 0⟩] : List Coordinate) ≠ [⟨0, 1⟩, ⟨1, 1⟩, ⟨1, 0⟩] := by
  refine ⟨by decide, by decide, by decide, by decide⟩

/-- **C5 (the code at the failing input).**  `copy` shares the
exclusion-based memo dict: after `c = b.copy()`, a query on `c` at
`(1, 1)` excluding `"X"` populates the shared dict, and a subsequent
no-exclusion query on `b` returns `c`'s filtered result `[(1,1), (1,0)]`
— whereas without `c`'s query the same query on `b` returns
`[(0,1), (1,1), (1,0)]`.  A query on the copy changed an observable query
result of the original. -/
theorem c5_copy_shares_memo :
    copyBoard (Board.mk 2 (initCells 2 ["X", "O", " ", " "]) " " false 0) [[]]
      = (Board.mk 2 (initCells 2 ["X", "O", " ", " "]) " " false 0, [[], []]) ∧
    offsetDirections (Board.mk 2 (initCells 2 ["X", "O", " ", " "]) " " false 0)
        ⟨1, 1⟩ ["X"] [[], []]
      = .ok ([⟨1, 1⟩, ⟨1, 0⟩], [[(⟨1, 1⟩, [⟨1, 1⟩, ⟨1, 0⟩])], []]) ∧
    offsetDirections (Board.mk 2 (initCells 2 ["X", "O", " ", " "]) " " false 0)
        ⟨1, 1⟩ [] [[(⟨1, 1⟩, [⟨1, 1⟩, ⟨1, 0⟩])], []]
      = .ok ([⟨1, 1⟩, ⟨1, 0⟩], [[(⟨1, 1⟩, [⟨1, 1⟩, ⟨1, 0⟩])], []]) ∧
    offsetDirections (Board.mk 2 (initCells 2 ["X", "O", " ", " "]) " " false 0)
        ⟨1, 1⟩ [] [[], []]
      = .ok ([⟨0, 1⟩, ⟨1, 1⟩, ⟨1, 0⟩], [[(⟨1, 1⟩, [⟨0, 1⟩, ⟨1, 1⟩, ⟨1, 0⟩])], []]) ∧
    ([⟨1, 1⟩, ⟨1, 0⟩] : List Coordinate) ≠ [⟨0, 1⟩, ⟨1, 1⟩, ⟨1, 0⟩] := by
  refine ⟨by decide, by decide, by decide, by decide, by decide⟩

end ApGames

namespace ApGames

/-! ## Move-cache eviction (claim C6)

`GameBase._available_steps_cache` is a `DefaultDict[int, Dict[...]]`
grouping cached available-steps results by the empty-cell count of the
board they were computed for.  `_clean_cache` walks upward from
`count(EMPTY) + 1`, deleting consecutive groups while present. -/

/-- One cache group: `Dict[(surface, player_label), available-steps]`. -/
abbrev StepsGroup := List ((List Label × Label) × List Coordinate)

/-- Python `key in dict` on the group dict. -/
def hasKey {α : Type} (cache : List (Nat × α)) (k : Nat) : Bool :=
  cache.any (fun e => e.1 = k)

/-- Python `del dict[key]` on the group dict. -/
def delKey {α : Type} (cache : List (Nat × α)) (k : Nat) : List (Nat × α) :=
  cache.filter (fun e => e.1 ≠ k)

theorem delKey_length_lt {α : Type} {cache : List (Nat × α)} {k : Nat}
    (h : hasKey cache k = true) : (delKey cache k).length < cache.length := by
  unfold delKey
  rw [List.length_filter_lt_length_iff_exists]
  simp only [hasKey, List.any_eq_true, decide_eq_true_eq] at h
  obtain ⟨e, he, hek⟩ := h
  exact ⟨e, he, by simp [hek]⟩

/-- The `while outdated in cache: del cache[outdated]; outdated += 1`
loop of `GameBase._clean_cache`. -/
def cleanLoop {α : Type} (cache : List (Nat × α)) (outdated : Nat) :
    List (Nat × α) :=
  if h : hasKey cache outdated = true then
    cleanLoop (delKey cache outdated) (outdated + 1)
  else cache
termination_by cache.length
decreasing_by exact delKey_length_lt h

/-- `GameBase._clean_cache`, parameterized by the live board's empty-cell
count: start at `count + 1` and delete consecutive groups upward. -/
def cleanCache {α : Type} (cache : List (Nat × α)) (emptyCount : Nat) :
    List (Nat × α) :=
  cleanLoop cache (emptyCount + 1)

theorem hasKey_delKey {α : Type} {cache : List (Nat × α)} {j k : Nat}
    (hjk : j ≠ k) : hasKey (delKey cache k) j = hasKey cache j := by
  unfold hasKey delKey
  rw [List.any_filter]
  congr 1
  funext a
  by_cases ha : a.1 = j
  · have hak : a.1 ≠ k := by omega
    simp [ha, hak, hjk]
  · simp [ha]

theorem cleanLoop_of_consecutive {α : Type} (m : Nat) :
    ∀ (cache : List (Nat × α)) (outdated : Nat),
    (∀ j, outdated ≤ j → j < outdated + m → hasKey cache j = true) →
    (∀ e ∈ cache, e.1 < outdated + m) →
    cleanLoop cache outdated = cache.filter (fun e => e.1 < outdated) := by
  induction m with
  | zero =>
    intro cache outdated _ hbound
    have hmiss : ¬ (hasKey cache outdated = true) := by
      simp only [hasKey, List.any_eq_true, not_exists]
      intro e
      intro hcontra
      have := hbound e hcontra.1
      have heq : e.1 = outdated := of_decide_eq_true hcontra.2
      omega
    rw [cleanLoop, dif_neg hmiss]
    have : ∀ e ∈ cache, decide (e.1 < outdated) = true := by
      intro e he
      have := hbound e he
      exact decide_eq_true (by omega)
    exact (List.filter_eq_self.mpr this).symm
  | succ m ih =>
    intro cache outdated hrun hbound
    have hk : hasKey cache outdated = true := hrun outdated le_rfl (by omega)
    rw [cleanLoop, dif_pos hk]
    have hrun' : ∀ j, outdated + 1 ≤ j → j < outdated + 1 + m →
        hasKey (delKey cache outdated) j = true := by
      intro j hj1 hj2
      rw [hasKey_delKey (by omega)]
      exact hrun j (by omega) (by omega)
    have hbound' : ∀ e ∈ delKey cache outdated, e.1 < outdated + 1 + m := by
      intro e he
      have := hbound e (List.mem_of_mem_filter he)
      omega
    rw [ih (delKey cache outdated) (outdated + 1) hrun' hbound']
    unfold delKey
    rw [List.filter_filter]
    refine List.filter_congr ?_
    intro e he
    by_cases h1 : e.1 < outdated
    · have h2 : e.1 ≠ outdated := by omega
      have h3 : e.1 < outdated + 1 := by omega
      simp [h1, h2, h3]
    · by_cases h2 : e.1 = outdated
      · simp [h1, h2]
      · have h3 : ¬ (e.1 < outdated + 1) := by omega
        simp [h1, h2, h3]

/-- **C6 (amended).**  When the groups of the move cache with empty-cell
count above the live count `k` form a gap-free run `k+1, …, k+m`, the
eviction step removes exactly them: what remains is the groups with count
`≤ k` — in particular a group with count exactly `k` is *kept*, and (per
`c6_eviction_keeps_groups`) a group beyond a gap would also survive, so
the unamended "removes every group ≥ k" is refuted. -/
theorem c6_eviction_drops_consecutive_run {α : Type} (m k : Nat)
    (cache : List (Nat × α))
    (hrun : ∀ j, k + 1 ≤ j → j < k + 1 + m → hasKey cache j = true)
    (hbound : ∀ e ∈ cache, e.1 < k + 1 + m) :
    cleanCache cache k = cache.filter (fun e => e.1 ≤ k) := by
  unfold cleanCache
  rw [cleanLoop_of_consecutive m cache (k + 1) hrun hbound]
  refine List.filter_congr ?_
  intro e _
  by_cases h : e.1 ≤ k
  · have : e.1 < k + 1 := by omega
    simp [h, this]
  · have : ¬ (e.1 < k + 1) := by omega
    simp [h, this]

/-- Witness for C6 with groups `{5, 6, 7}` and live empty count `5`:
groups `6` and `7` are evicted, group `5` is kept. -/
theorem c6_eviction_drops_consecutive_run_witness :
    (∀ j, 5 + 1 ≤ j → j < 5 + 1 + 2 →
        hasKey [(5, ([] : StepsGroup)), (6, []), (7, [])] j = true) ∧
    (∀ e ∈ [(5, ([] : StepsGroup)), (6, []), (7, [])], e.1 < 5 + 1 + 2) ∧
    cleanCache [(5, ([] : StepsGroup)), (6, []), (7, [])] 5 = [(5, [])] :=
  ⟨by decide, by decide, by
    rw [c6_eviction_drops_consecutive_run 2 5 _ (by decide) (by decide)]
    decide⟩

/-- **C6, counterexample to the unamended claim.**  With live empty count
`5` and cache groups `{5, 6, 8}`, the eviction keeps group `5` (count
equal to the live count) and group `8` (beyond the gap at `7`): groups
with empty-cell count `≥ 5` remain after eviction. -/
theorem c6_eviction_keeps_groups :
    cleanCache [(5, ([] : StepsGroup)), (6, []), (8, [])] 5
      = [(5, []), (8, [])] ∧
    ¬ (∀ e ∈ cleanCache [(5, ([] : StepsGroup)), (6, []), (8, [])] 5,
        e.1 < 5) := by
  have h1 : cleanCache [(5, ([] : StepsGroup)), (6, []), (8, [])] 5
      = [(5, []), (8, [])] := by
    unfold cleanCache
    rw [cleanLoop, dif_pos (by decide)]
    rw [cleanLoop, dif_neg (by decide)]
    decide
  refine ⟨h1, ?_⟩
  rw [h1]
  intro hcontra
  have := hcontra (5, []) (by simp)
  omega

end ApGames

namespace ApGames

/-! ## TicTacToe rule engine (claim C4) -/

/-- `TicTacToe.winners`: the players whose label fully occupies some side
of `all_sides` (the loop over `self.players` with the inner `break`
builds exactly this set; player order is `X` then `O`). -/
def ticTacToeWinners (b : Board) : List Label :=
  ["X", "O"].filter fun m =>
    (allSides b).any fun side => side.all fun cell => cell.label = m

/-- `TicTacToe.get_status`: the count check, then the winner/draw case
split (the two-field `GameStatus` of this variant never sets
`must_skip`). -/
def ticTacToeGetStatus (b : Board) : GameStatus :=
  if ((countLabel b "X" : Int) - (countLabel b "O" : Int)).natAbs > 1 then
    ⟨false, "Impossible\n", false⟩
  else
    let winners := ticTacToeWinners b
    if winners = [] ∧ availableSteps b = [] then
      ⟨false, "Draw\n", false⟩
    else if winners.length = 1 then
      ⟨false, (winners.headD "") ++ " wins\n", false⟩
    else if winners.length > 1 then
      ⟨false, "Impossible\n", false⟩
    else
      ⟨true, "", false⟩

/-- The mark of the surface at 1-based column/row, per the
specification's index formula `index = (column−1) + S×(S−row)`. -/
def surfaceMark (S : Nat) (surface : List Label) (col row : Nat) : Label :=
  surface.getD ((S - row) * S + (col - 1)) ""

/-- Specification-level: mark `m` fully occupies some row. -/
def specRowWin (S : Nat) (surface : List Label) (m : Label) : Bool :=
  (List.range' 1 S).any fun r =>
    (List.range' 1 S).all fun c => surfaceMark S surface c r = m

/-- Specification-level: mark `m` fully occupies some column. -/
def specColWin (S : Nat) (surface : List Label) (m : Label) : Bool :=
  (List.range' 1 S).any fun c =>
    (List.range' 1 S).all fun r => surfaceMark S surface c r = m

/-- Specification-level: mark `m` fully occupies the main diagonal
(cells `(n+1, S−n)`). -/
def specMainDiagWin (S : Nat) (surface : List Label) (m : Label) : Bool :=
  (List.range S).all fun n => surfaceMark S surface (n + 1) (S - n) = m

/-- Specification-level: mark `m` fully occupies the reverse diagonal
(cells `(n, n)`). -/
def specRevDiagWin (S : Nat) (surface : List Label) (m : Label) : Bool :=
  (List.range' 1 S).all fun n => surfaceMark S surface n n = m

/-- Specification-level winner: `m` fully occupies at least one row,
column or diagonal. -/
def specWinner (S : Nat) (surface : List Label) (m : Label) : Bool :=
  specRowWin S surface m || specColWin S surface m ||
    specMainDiagWin S surface m || specRevDiagWin S surface m

/-- Specification-level winner set (as the claim words it). -/
def specWinners (S : Nat) (surface : List Label) : List Label :=
  ["X", "O"].filter (specWinner S surface)

/-- The claim's case analysis of the line-completion status, computed
from the raw surface. -/
def specStatus (S : Nat) (surface : List Label) : GameStatus :=
  if ((surface.count "X" : Int) - (surface.count "O" : Int)).natAbs > 1 then
    ⟨false, "Impossible\n", false⟩
  else
    let winners := specWinners S surface
    if winners = [] ∧ surface.count EMPTY = 0 then
      ⟨false, "Draw\n", false⟩
    else if winners.length = 1 then
      ⟨false, (winners.headD "") ++ " wins\n", false⟩
    else if winners.length > 1 then
      ⟨false, "Impossible\n", false⟩
    else
      ⟨true, "", false⟩

theorem dictGet_mem {cells : List Cell} {k : Coordinate} {cell : Cell}
    (h : dictGet cells k = some cell) : cell ∈ cells := by
  induction cells with
  | nil => simp [dictGet] at h
  | cons c rest ih =>
    by_cases hc : c.coordinate = k
    · simp only [dictGet, if_pos hc] at h
      exact (Option.some.injEq _ _ ▸ h) ▸ List.mem_cons_self _ _
    · simp only [dictGet, if_neg hc] at h
      exact List.mem_cons_of_mem _ (ih h)

/-- Membership in the constructed cells dict, described by column/row and
the surface mark. -/
theorem mem_initCells_iff {S : Nat} {surface : List Label} (hS : 0 < S)
    (hlen : surface.length = S * S) {cell : Cell} :
    cell ∈ initCells S surface ↔
      ∃ col row : Nat, 1 ≤ col ∧ col ≤ S ∧ 1 ≤ row ∧ row ≤ S ∧
        cell = ⟨⟨(col : Int), (row : Int)⟩, surfaceMark S surface col row⟩ := by
  constructor
  · intro hmem
    rw [initCells_eq_map surface hS hlen] at hmem
    obtain ⟨p, hp, hpc⟩ := List.mem_map.mp hmem
    obtain ⟨i, lbl⟩ := p
    have hget : surface[i]? = some lbl := List.mk_mem_enum_iff_getElem?.mp hp
    have hilen : i < surface.length := by
      by_contra hcontra
      rw [List.getElem?_eq_none (by omega)] at hget
      exact absurd hget (by simp)
    have hlbl : surface.getD i "" = lbl := by
      rw [List.getD_eq_getElem?_getD, hget]
      rfl
    have hdi : i / S < S := Nat.div_lt_of_lt_mul (hlen ▸ hilen)
    have hri : i % S < S := Nat.mod_lt _ hS
    refine ⟨i % S + 1, S - i / S,
      Nat.succ_le_succ (Nat.zero_le _),
      Nat.succ_le_of_lt hri,
      Nat.le_sub_of_add_le (by rw [Nat.add_comm]; exact Nat.succ_le_of_lt hdi),
      Nat.sub_le _ _, ?_⟩
    have hidx : (S - (S - i / S)) * S + (i % S + 1 - 1) = i := by
      rw [Nat.sub_sub_self (Nat.le_of_lt hdi), Nat.succ_sub_one, Nat.mul_comm]
      exact Nat.div_add_mod i S
    rw [← hpc]
    show (⟨indexToCoordinate S i, lbl⟩ : Cell) = _
    unfold surfaceMark
    rw [hidx, hlbl]
    unfold indexToCoordinate
    simp only [Cell.mk.injEq, Coordinate.mk.injEq, and_true, true_and]
    push_cast
    ring
  · intro hexists
    obtain ⟨col, row, h1, h2, h3, h4, hcell⟩ := hexists
    have := dictGet_initCells_inRange surface hS hlen h1 h2 h3 h4
    rw [hcell]
    exact dictGet_mem this

theorem list_all_congr {α : Type} {l : List α} {p q : α → Bool}
    (h : ∀ a ∈ l, p a = q a) : l.all p = l.all q := by
  induction l with
  | nil => rfl
  | cons a rest ih =>
    simp only [List.all_cons]
    rw [h a (by simp), ih (fun b hb => h b (by simp [hb]))]

theorem list_any_congr {α : Type} {l : List α} {p q : α → Bool}
    (h : ∀ a ∈ l, p a = q a) : l.any p = l.any q := by
  induction l with
  | nil => rfl
  | cons a rest ih =>
    simp only [List.any_cons]
    rw [h a (by simp), ih (fun b hb => h b (by simp [hb]))]

end ApGames

namespace ApGames

theorem list_any_map {α β : Type} (f : α → β) (l : List α) (p : β → Bool) :
    (l.map f).any p = l.any (p ∘ f) := by
  induction l with
  | nil => rfl
  | cons a rest ih => simp only [List.map_cons, List.any_cons, ih]; rfl

theorem list_all_map {α β : Type} (f : α → β) (l : List α) (p : β → Bool) :
    (l.map f).all p = l.all (p ∘ f) := by
  induction l with
  | nil => rfl
  | cons a rest ih => simp only [List.map_cons, List.all_cons, ih]; rfl

theorem row_all_eq {S : Nat} {surface : List Label} (hS : 0 < S)
    (hlen : surface.length = S * S) {r : Nat} (hr1 : 1 ≤ r) (hrS : r ≤ S)
    (m : Label) :
    ((initCells S surface).filter fun cell => cell.coordinate.y = (r : Int)).all
        (fun cell => cell.label = m)
      = (List.range' 1 S).all fun c => surfaceMark S surface c r = m := by
  rw [Bool.eq_iff_iff, List.all_eq_true, List.all_eq_true]
  constructor
  · intro H c hc
    rw [List.mem_range'_1] at hc
    have hcell := (mem_initCells_iff hS hlen).mpr
      ⟨c, r, hc.1, by omega, hr1, hrS, rfl⟩
    have := H _ (List.mem_filter.mpr ⟨hcell, by simp⟩)
    exact this
  · intro H cell hcell
    obtain ⟨hmem, hy⟩ := List.mem_filter.mp hcell
    obtain ⟨col, row, h1, h2, h3, h4, hc⟩ := (mem_initCells_iff hS hlen).mp hmem
    have hyr : cell.coordinate.y = (r : Int) := of_decide_eq_true hy
    have hrow : row = r := by
      rw [hc] at hyr
      dsimp only at hyr
      exact_mod_cast hyr
    rw [hc]
    simp only [decide_eq_true_eq]
    rw [hrow]
    exact of_decide_eq_true (H col (List.mem_range'_1.mpr ⟨h1, by omega⟩))

theorem col_all_eq {S : Nat} {surface : List Label} (hS : 0 < S)
    (hlen : surface.length = S * S) {c : Nat} (hc1 : 1 ≤ c) (hcS : c ≤ S)
    (m : Label) :
    ((initCells S surface).filter fun cell => cell.coordinate.x = (c : Int)).all
        (fun cell => cell.label = m)
      = (List.range' 1 S).all fun r => surfaceMark S surface c r = m := by
  rw [Bool.eq_iff_iff, List.all_eq_true, List.all_eq_true]
  constructor
  · intro H r hr
    rw [List.mem_range'_1] at hr
    have hcell := (mem_initCells_iff hS hlen).mpr
      ⟨c, r, hc1, hcS, hr.1, by omega, rfl⟩
    have := H _ (List.mem_filter.mpr ⟨hcell, by simp⟩)
    exact this
  · intro H cell hcell
    obtain ⟨hmem, hx⟩ := List.mem_filter.mp hcell
    obtain ⟨col, row, h1, h2, h3, h4, hcl⟩ := (mem_initCells_iff hS hlen).mp hmem
    have hxc : cell.coordinate.x = (c : Int) := of_decide_eq_true hx
    have hcol : col = c := by
      rw [hcl] at hxc
      dsimp only at hxc
      exact_mod_cast hxc
    rw [hcl]
    simp only [decide_eq_true_eq]
    rw [hcol]
    exact of_decide_eq_true (H row (List.mem_range'_1.mpr ⟨h3, by omega⟩))

theorem rows_any_eq (S : Nat) (surface : List Label)
    (gap : String) (axis : Bool) (ref : Nat)
    (hS : 0 < S) (hlen : surface.length = S * S) (m : Label) :
    ((rows (Board.mk S (initCells S surface) gap axis ref)).any
        fun side => side.all fun cell => cell.label = m)
      = specRowWin S surface m := by
  unfold rows
  dsimp only
  rw [list_any_map, List.any_reverse]
  unfold specRowWin
  refine list_any_congr ?_
  intro r hr
  rw [List.mem_range'_1] at hr
  simp only [Function.comp_apply]
  exact row_all_eq hS hlen hr.1 (by omega) m

theorem cols_any_eq (S : Nat) (surface : List Label)
    (gap : String) (axis : Bool) (ref : Nat)
    (hS : 0 < S) (hlen : surface.length = S * S) (m : Label) :
    ((columns (Board.mk S (initCells S surface) gap axis ref)).any
        fun side => side.all fun cell => cell.label = m)
      = specColWin S surface m := by
  unfold columns
  dsimp only
  rw [list_any_map]
  unfold specColWin
  refine list_any_congr ?_
  intro c hc
  rw [List.mem_range'_1] at hc
  simp only [Function.comp_apply]
  exact col_all_eq hS hlen hc.1 (by omega) m

theorem mainDiag_all_eq {S : Nat} {surface : List Label} (hS : 0 < S)
    (hlen : surface.length = S * S) (m : Label) :
    (((List.range S).map fun n =>
        (dictGet (initCells S surface)
          ⟨((n : Nat) : Int) + 1, (S : Int) - ((n : Nat) : Int)⟩).getD
          undefinedCell)).all (fun cell => cell.label = m)
      = specMainDiagWin S surface m := by
  unfold specMainDiagWin
  rw [list_all_map]
  refine list_all_congr ?_
  intro n hn
  have hnS : n < S := List.mem_range.mp hn
  have hco : (⟨(n : Int) + 1, (S : Int) - (n : Int)⟩ : Coordinate)
      = ⟨((n + 1 : Nat) : Int), ((S - n : Nat) : Int)⟩ := by
    simp only [Coordinate.mk.injEq]
    constructor
    · push_cast; ring
    · rw [Nat.cast_sub (Nat.le_of_lt hnS)]
  simp only [Function.comp_apply, hco]
  rw [dictGet_initCells_inRange surface hS hlen
    (by omega) (by omega) (by omega) (by omega)]
  rfl

theorem revDiag_all_eq {S : Nat} {surface : List Label} (hS : 0 < S)
    (hlen : surface.length = S * S) (m : Label) :
    (((List.range' 1 S).map fun n =>
        (dictGet (initCells S surface)
          ⟨((n : Nat) : Int), ((n : Nat) : Int)⟩).getD
          undefinedCell)).all (fun cell => cell.label = m)
      = specRevDiagWin S surface m := by
  unfold specRevDiagWin
  rw [list_all_map]
  refine list_all_congr ?_
  intro n hn
  rw [List.mem_range'_1] at hn
  simp only [Function.comp_apply]
  rw [dictGet_initCells_inRange surface hS hlen
    hn.1 (by omega) hn.1 (by omega)]
  rfl

theorem ticTacToeWinners_eq (S : Nat) (surface : List Label)
    (gap : String) (axis : Bool) (ref : Nat)
    (hS : 0 < S) (hlen : surface.length = S * S) :
    ticTacToeWinners (Board.mk S (initCells S surface) gap axis ref)
      = specWinners S surface := by
  unfold ticTacToeWinners specWinners
  refine List.filter_congr ?_
  intro m _
  show ((allSides (Board.mk S (initCells S surface) gap axis ref)).any
      fun side => side.all fun cell => cell.label = m) = specWinner S surface m
  unfold allSides
  rw [List.any_append, List.any_append]
  rw [rows_any_eq S surface gap axis ref hS hlen m,
    cols_any_eq S surface gap axis ref hS hlen m]
  unfold diagonals
  dsimp only
  simp only [List.any_cons, List.any_nil]
  rw [mainDiag_all_eq hS hlen m, revDiag_all_eq hS hlen m]
  unfold specWinner
  simp [Bool.or_assoc]

theorem surfaceOf_initCells {S : Nat} (surface : List Label) (hS : 0 < S)
    (hlen : surface.length = S * S) :
    (initCells S surface).map (·.label) = surface := by
  rw [initCells_eq_map surface hS hlen, List.map_map]
  have : ((·.label) ∘ fun p : Nat × Label => (⟨indexToCoordinate S p.1, p.2⟩ : Cell))
      = Prod.snd := rfl
  rw [this, List.enum_map_snd]

theorem countLabel_initCells {S : Nat} (surface : List Label)
    (gap : String) (axis : Bool) (ref : Nat)
    (hS : 0 < S) (hlen : surface.length = S * S) (lbl : Label) :
    countLabel (Board.mk S (initCells S surface) gap axis ref) lbl
      = surface.count lbl := by
  unfold countLabel
  dsimp only
  rw [surfaceOf_initCells surface hS hlen]

theorem availableSteps_nil_iff {S : Nat} (surface : List Label)
    (gap : String) (axis : Bool) (ref : Nat)
    (hS : 0 < S) (hlen : surface.length = S * S) :
    availableSteps (Board.mk S (initCells S surface) gap axis ref) = []
      ↔ surface.count EMPTY = 0 := by
  unfold availableSteps
  dsimp only
  rw [List.map_eq_nil, List.filter_eq_nil, List.count_eq_zero]
  have hsurf := surfaceOf_initCells surface hS hlen
  constructor
  · intro H hcontra
    rw [← hsurf] at hcontra
    obtain ⟨cell, hcell, hlbl⟩ := List.mem_map.mp hcontra
    exact H cell hcell (decide_eq_true hlbl)
  · intro H cell hcell hdlbl
    refine H ?_
    rw [← hsurf]
    exact List.mem_map.mpr ⟨cell, hcell, of_decide_eq_true hdlbl⟩

/-- **C4.**  For every line-completion (TicTacToe) board: if the counts
of the two player marks differ by more than 1 the status is terminal
"Impossible"; otherwise, with winners = the marks fully occupying at
least one row, column or diagonal of the surface: zero winners and no
empty cell gives terminal "Draw", exactly one winner gives terminal
"<mark> wins", more than one winner gives terminal "Impossible", and
every remaining case is active. -/
theorem c4_tictactoe_status (S : Nat) (surface : List Label)
    (gap : String) (axis : Bool) (ref : Nat)
    (h2 : 2 ≤ S) (h9 : S ≤ 9) (hlen : surface.length = S * S) :
    ticTacToeGetStatus (Board.mk S (initCells S surface) gap axis ref)
      = specStatus S surface := by
  have hS : 0 < S := by omega
  unfold ticTacToeGetStatus specStatus
  rw [countLabel_initCells surface gap axis ref hS hlen "X",
    countLabel_initCells surface gap axis ref hS hlen "O",
    ticTacToeWinners_eq S surface gap axis ref hS hlen]
  simp only [availableSteps_nil_iff surface gap axis ref hS hlen]

/-- Witness for C4 on the 3×3 board `"XXX OO   "` (X completed the top
row): status is terminal "X wins". -/
theorem c4_tictactoe_status_witness :
    (2 ≤ 3 ∧ 3 ≤ 9 ∧
      ([ "X", "X", "X", " ", "O", "O", " ", " ", " " ] : List Label).length
        = 3 * 3) ∧
    ticTacToeGetStatus (Board.mk 3
        (initCells 3 ["X", "X", "X", " ", "O", "O", " ", " ", " "]) " " false 0)
      = specStatus 3 ["X", "X", "X", " ", "O", "O", " ", " ", " "] ∧
    specStatus 3 ["X", "X", "X", " ", "O", "O", " ", " ", " "]
      = ⟨false, "X wins\n", false⟩ :=
  ⟨⟨by decide, by decide, by decide⟩,
   c4_tictactoe_status 3 ["X", "X", "X", " ", "O", "O", " ", " ", " "]
     " " false 0 (by decide) (by decide) (by decide),
   by decide⟩

end ApGames

namespace ApGames

/-! ## Reversi rule engine (claims C3 and C1)

`reversi.py` calls a few gameboard helpers (`offset_directions` with a
`label=` selector, `surface`, `counter`, `coordinates_with_label`) and the
game-base helpers (`get_next_player`, `_get_adversary_label`) whose
definitions are from a different development stage of the repository than
the checked-in `gameboard.py`/`game_base.py`; they are modelled from the
spec and from the callers' in-code comments.  The game-level
available-steps cache of `GameBase` stores on a miss exactly the value
computed below and returns the stored value, so it is modelled as
transparent. -/

/-- Modelled from the spec: the two marks/sides; `_get_adversary_label`
and `get_next_player` both yield the other side's mark. -/
def getAdversaryLabel (lbl : Label) : Label :=
  if lbl = "X" then "O" else "X"

/-- Modelled from the spec: the `offset_directions(coordinate, label=…)`
variant called by `reversi.py` — per the caller's comment ("Iterate over
all directions where the cell occupied by the `mid_label`"), the unit
directions whose immediate neighbour holds the given mark. -/
def offsetDirectionsWithLabel (b : Board) (c : Coordinate) (lbl : Label) :
    List Coordinate :=
  directions.filter fun shift =>
    match dictGet b.cells ⟨c.x + shift.x, c.y + shift.y⟩ with
    | none => false
    | some cell => cell.label = lbl

/-- Modelled from the spec: `gameboard.coordinates_with_label(label)` —
the coordinates of the cells holding the mark, in dict order. -/
def coordinatesWithLabel (b : Board) (lbl : Label) : List Coordinate :=
  (b.cells.filter fun cell => cell.label = lbl).map (·.coordinate)

/-- `Reversi._winners`: the players whose mark attains the maximum count
on the board (both when tied). -/
def reversiWinners (b : Board) : List Label :=
  ["X", "O"].filter fun m =>
    countLabel b m = max (countLabel b "X") (countLabel b "O")

/-- `Reversi.get_score`: own count minus the other side's count. -/
def reversiGetScore (b : Board) (player : Label) : Int :=
  (countLabel b player : Int) - (countLabel b (getAdversaryLabel player) : Int)

/-- The `while label == mid_label` walk of `_check_directions` along one
direction: state is the `(next_coordinate, label)` pair from the last
`get_offset_cell`; off the board `get_offset_cell` yields the sentinel
cell whose mark `""` stops the walk, so `size + 2` fuel is never
exhausted. -/
def whileMid (b : Board) (mid : Label) (d : Coordinate) :
    Nat → Coordinate × Label → Coordinate × Label
  | 0, state => state
  | fuel + 1, (coord, lbl) =>
    if lbl = mid then
      let cell := getOffsetCell b coord d
      whileMid b mid d fuel (cell.coordinate, cell.label)
    else (coord, lbl)

/-- The loop body of `Reversi._check_directions` over the candidate
directions: in `reverse` mode collect the cell after each mid-run that
holds `end_label`; otherwise return `(start_coordinate,)` on the first
success. -/
def checkDirectionsGo (b : Board) (start : Coordinate) (mid endLbl : Label)
    (reverse : Bool) : List Coordinate → List Coordinate → List Coordinate
  | [], acc => acc
  | d :: rest, acc =>
    let first := getOffsetCell b start d
    let (nc, lbl) := whileMid b mid d (b.size + 2) (first.coordinate, first.label)
    if lbl = endLbl then
      if reverse then checkDirectionsGo b start mid endLbl reverse rest (acc ++ [nc])
      else [start]
    else checkDirectionsGo b start mid endLbl reverse rest acc

/-- `Reversi._check_directions`. -/
def checkDirections (b : Board) (start : Coordinate) (mid endLbl : Label)
    (reverse : Bool) : List Coordinate :=
  checkDirectionsGo b start mid endLbl reverse
    (offsetDirectionsWithLabel b start mid) []

/-- `Reversi.available_steps` (the computation the per-game cache stores
and returns): scan from the empty cells toward own marks when empties are
not in the majority over own marks, otherwise from own marks toward the
empties, and deduplicate.  (Python deduplicates through a `set` whose
iteration order is unspecified; the order is never relied upon.) -/
def reversiAvailableSteps (b : Board) (playerLabel : Label) : List Coordinate :=
  let adversaryLabel := getAdversaryLabel playerLabel
  let acc :=
    if countLabel b EMPTY ≤ countLabel b playerLabel then
      (coordinatesWithLabel b EMPTY).foldl
        (fun acc c => acc ++ checkDirections b c adversaryLabel playerLabel false) []
    else
      (coordinatesWithLabel b playerLabel).foldl
        (fun acc c => acc ++ checkDirections b c adversaryLabel EMPTY true) []
  acc.dedup

/-- `Reversi.get_status`. -/
def reversiGetStatus (b : Board) (player : Label) : GameStatus :=
  if reversiAvailableSteps b player = [] then
    if reversiAvailableSteps b (getAdversaryLabel player) = [] then
      let winners := reversiWinners b
      if winners.length = 1 then
        ⟨false, (winners.headD "") ++ " wins\n", false⟩
      else if winners.length > 1 then
        ⟨false, "Draw\n", false⟩
      else
        ⟨false, "Impossible\n", false⟩
    else
      ⟨false, "The player [" ++ player ++ "] has no steps available!\n", true⟩
  else
    ⟨true, "", false⟩

/-- The `while label and label not in (EMPTY, player_label)` collection
walk of `Reversi.step`: gather the adversary-occupied run and report the
mark that ends it. -/
def collectRun (b : Board) (player : Label) (d : Coordinate) :
    Nat → Coordinate × Label → List Coordinate × Label
  | 0, (_, lbl) => ([], lbl)
  | fuel + 1, (coord, lbl) =>
    if lbl ≠ "" ∧ lbl ≠ EMPTY ∧ lbl ≠ player then
      let cell := getOffsetCell b coord d
      let (rest, final) := collectRun b player d fuel (cell.coordinate, cell.label)
      (coord :: rest, final)
    else ([], lbl)

/-- The force-labelling of all collected adversary cells (the `while
adversary_occupied_cells: label(pop(), force=True)` loop; the final cell
values do not depend on the pop order). -/
def applyFlips (cells : List Cell) (coords : List Coordinate) (player : Label) :
    Nat × List Cell :=
  coords.foldl
    (fun acc c =>
      let r := labelCells acc.2 c player true
      (acc.1 + r.1, r.2))
    (0, cells)

/-- `Reversi.step` on the board value: reject non-available coordinates,
place the mark, then flip every adversary run that is bounded by an own
mark; returns the changed-cell count and the new board.  (The game-level
cache-size eviction trigger is game state, not board state.) -/
def reversiStep (b : Board) (coordinate : Coordinate) (playerLabel : Label) :
    Nat × Board :=
  if coordinate ∉ reversiAvailableSteps b playerLabel then (0, b)
  else
    let r1 := labelCells b.cells coordinate playerLabel false
    let b1 := { b with cells := r1.2 }
    if r1.1 = 0 then (0, b1)
    else
      let shifts := offsetDirectionsWithLabel b1 coordinate
        (getAdversaryLabel playerLabel)
      shifts.foldl
        (fun acc shift =>
          let first := getOffsetCell acc.2 coordinate shift
          let run := collectRun acc.2 playerLabel shift (acc.2.size + 2)
            (first.coordinate, first.label)
          if run.2 = playerLabel then
            let flips := applyFlips acc.2.cells run.1 playerLabel
            (acc.1 + flips.1, { acc.2 with cells := flips.2 })
          else acc)
        (r1.1, b1)

/-- **C3 (the code at the failing input).**  On the 3×3 board
`" O ​/ O ​/ XO"` the side to move `X` has no legal move while `O` can
move at `(1, 1)`; `Reversi.get_status` returns
`active=False, must_skip=True` — a *terminal-looking* status for a
non-terminal board, contradicting the claim (and the method's own
documentation, "`GameStatus.active == False` if game cannot be
continued"). -/
theorem c3_must_skip_is_inactive :
    reversiAvailableSteps (Board.mk 3
        (initCells 3 [" ", "O", " ", " ", "O", " ", " ", "X", "O"]) " " true 0)
      "X" = [] ∧
    reversiAvailableSteps (Board.mk 3
        (initCells 3 [" ", "O", " ", " ", "O", " ", " ", "X", "O"]) " " true 0)
      "O" = [⟨1, 1⟩] ∧
    reversiGetStatus (Board.mk 3
        (initCells 3 [" ", "O", " ", " ", "O", " ", " ", "X", "O"]) " " true 0)
      "X" = ⟨false, "The player [X] has no steps available!\n", true⟩ := by
  refine ⟨by decide, by decide, by decide⟩

end ApGames

namespace ApGames

/-! ## Minimax search engine (claims C1 and C7)

`AIPlayer._minimax` / `_get_terminal_move` from `ai_player.py`.  The
`Move` namedtuple of this version carries `(coordinate, score,
percentage)` — the spec calls the third field `potential`.  The searching
player's game is abstracted as the capability record `Game` (status,
score, adversary mark, available moves, move application, high-priority
coordinates), instantiated below for the two rule engines.
`random.choice(most_likely_moves)` picks among moves that all share the
same score, and the returned `percentage` is overwritten after the
choice, so the score and percentage of every minimax result are
choice-independent; the model takes the first candidate.  Recursion is
fuel-bounded (`fuel` ≥ one more than the number of empty cells always
suffices, as every ply consumes an empty cell). -/

/-- `Move(coordinate, score, percentage)`. -/
structure Move where
  coordinate : Coordinate
  score : Int
  percentage : Int
deriving DecidableEq, Repr

/-- The game-capability record consumed by `AIPlayer` (`self.game`). -/
structure Game where
  getStatus : Board → Label → GameStatus
  getScore : Board → Label → Int
  getAdversaryMark : Label → Label
  getAvailableMoves : Board → Label → List Coordinate
  placeMark : Coordinate → Label → Board → Board
  highPriorityCoordinates : List (Coordinate × Int)

/-- `self.game.high_priority_coordinates.get(coordinate, 0)`. -/
def priorityGet (l : List (Coordinate × Int)) (c : Coordinate) : Int :=
  match l.find? (fun e => e.1 = c) with
  | none => 0
  | some e => e.2

/-- `AIPlayer._fix_high_priority_coordinates_score`: add the coordinate
bonus to own moves, subtract it from adversary moves; identity when the
game defines no high-priority coordinates. -/
def fixHighPriorityCoordinatesScore (g : Game) (selfMark : Label)
    (moves : List Move) (playerMark : Label) : List Move :=
  if g.highPriorityCoordinates ≠ [] then
    if playerMark = selfMark then
      moves.map fun m =>
        { m with score := m.score + priorityGet g.highPriorityCoordinates m.coordinate }
    else
      moves.map fun m =>
        { m with score := m.score - priorityGet g.highPriorityCoordinates m.coordinate }
  else moves

/-- `AIPlayer._extract_desired_moves`: keep the moves with the maximum
score when the node's side is the searching player, the minimum score
otherwise. -/
def extractDesiredMoves (selfMark : Label) (moves : List Move)
    (playerMark : Label) : List Move :=
  let desiredScore :=
    if playerMark = selfMark then ((moves.map (·.score)).max?).getD 0
    else ((moves.map (·.score)).min?).getD 0
  moves.filter fun m => m.score = desiredScore

/-- `AIPlayer._extract_most_likely_moves`: among score-tied moves keep
those with maximum percentage when (score ≥ 0 and own side) or (score < 0
and adversary side), minimum percentage otherwise. -/
def extractMostLikelyMoves (selfMark : Label) (moves : List Move)
    (playerMark : Label) : List Move :=
  let desiredScore := (moves.headD ⟨undefinedCoordinate, 0, 0⟩).score
  let desiredPercentage :=
    if (0 ≤ desiredScore ∧ playerMark = selfMark) ∨
        (desiredScore < 0 ∧ playerMark ≠ selfMark) then
      ((moves.map (·.percentage)).max?).getD 0
    else ((moves.map (·.percentage)).min?).getD 0
  moves.filter fun m => m.percentage = desiredPercentage

/-- The per-candidate loop of `_get_terminal_move`: place each available
move on a copy of the board (boards are immutable values here, so the
`gameboard.copy()` is the value itself) and recurse with the adversary to
move. -/
def childMoves (g : Game) (recurse : Board → Label → Int → Move)
    (board : Board) (playerMark : Label) (depth : Int) : List Move :=
  (g.getAvailableMoves board playerMark).map fun coordinate =>
    let fake := g.placeMark coordinate playerMark board
    let m := recurse fake (g.getAdversaryMark playerMark) depth
    { m with coordinate := coordinate }

/-! `int(len(desired_moves) / len(moves) * 100)` (ai_player.py:252) is
evaluated by CPython in binary64 floating point: the two lengths convert
to doubles exactly (they are at most 81 ≪ 2^53), the quotient and then
the product with `100.0` are each rounded to the nearest representable
double (ties to even), and `int()` truncates toward zero.  The helpers
below model that arithmetic exactly with integers, representing a
positive double as `significand / 2^shift` with
`2^52 ≤ significand < 2^53` (our values all lie in the normal range). -/

/-- Round `num / den` to the nearest integer, ties to the even integer —
the IEEE-754 round-to-nearest-even step. -/
def roundHalfEven (num den : Nat) : Nat :=
  let q := num / den
  let r := num % den
  if 2 * r < den then q
  else if den < 2 * r then q + 1
  else if q % 2 = 0 then q else q + 1

/-- The smallest `k` with `m ≤ d·2^k` (fuel-bounded; for `1 ≤ d` a fuel
of `m` always suffices), so that `2^(-k) ≤ d/m < 2^(1-k)`. -/
def findScale : Nat → Nat → Nat → Nat
  | 0, _, _ => 0
  | fuel + 1, d, m => if m ≤ d then 0 else 1 + findScale fuel (2 * d) m

/-- The binary64 value of `d / m` (for `1 ≤ d ≤ m`) as
`(significand, shift)` with value `significand / 2^shift`: the exact
quotient scaled into `[2^52, 2^53)` and rounded to nearest-even, with a
renormalization when the rounding lands on `2^53`. -/
def floatDiv (d m : Nat) : Nat × Nat :=
  let k := findScale m d m
  let s := roundHalfEven (d * 2 ^ (52 + k)) m
  if s = 2 ^ 53 then (2 ^ 52, 51 + k) else (s, 52 + k)

/-- The bit length of `v` (the smallest `b` with `v < 2^b`),
fuel-bounded structural recursion; any fuel ≥ the bit count works, and
every value taken here is below `2^64`. -/
def bitLength : Nat → Nat → Nat
  | 0, _ => 0
  | fuel + 1, v => if v = 0 then 0 else 1 + bitLength fuel (v / 2)

/-- The binary64 product of `(sig, shift)` with `100.0`: the exact
integer product `100·sig` (59 or 60 bits) rounded back to 53 significant
bits, ties to even. -/
def floatMul100 (sig shift : Nat) : Nat × Nat :=
  let v := 100 * sig
  let t := bitLength 64 v - 53
  (roundHalfEven v (2 ^ t) * 2 ^ t, shift)

/-- `int(d / m * 100)` exactly as CPython evaluates it in binary64 for
`1 ≤ d ≤ m` in the normal range: divide with correct rounding, multiply
by 100 with correct rounding, truncate (the value is non-negative, so
truncation is the floor). -/
def pyIntPercent (d m : Nat) : Nat :=
  let dv := floatDiv d m
  let pr := floatMul100 dv.1 dv.2
  pr.1 / 2 ^ pr.2

/-- `AIPlayer._get_terminal_move` given the recursive evaluator: fix the
priority scores, extract the min/max-desired moves, extract the
most-likely moves, choose among them (all choices share score and
percentage), and overwrite the percentage with
`int(len(desired_moves) / len(moves) * 100)`, modelled bit-exactly by
`pyIntPercent`.  `random.choice` of an empty list would raise; an active
node always has moves, and the model returns a sentinel move on that
unreachable path. -/
def getTerminalMoveWith (g : Game) (selfMark : Label)
    (recurse : Board → Label → Int → Move) (board : Board)
    (playerMark : Label) (depth : Int) : Move :=
  let moves := childMoves g recurse board playerMark depth
  if moves = [] then ⟨undefinedCoordinate, 0, 100⟩
  else
    let fixedMoves := fixHighPriorityCoordinatesScore g selfMark moves playerMark
    let desiredMoves := extractDesiredMoves selfMark fixedMoves playerMark
    let mostLikelyMoves := extractMostLikelyMoves selfMark desiredMoves playerMark
    let move := mostLikelyMoves.headD ⟨undefinedCoordinate, 0, 100⟩
    { move with percentage := (pyIntPercent desiredMoves.length moves.length : Nat) }

/-- `AIPlayer._minimax`: the must-skip rotation (adversary to move, depth
minus one, status reactivated), then either the terminal/heuristic return
`Move(undefined, score(self.mark) * last_move_coefficient, 100)` with
`last_move_coefficient = 10^(max_depth − depth + 1)` on a terminal board
(and `1` on a heuristic leaf), or the recursion over the available moves
at `depth + 1`. -/
def minimax (g : Game) (selfMark : Label) (maxDepth : Nat) :
    Nat → Board → Label → Int → Move
  | 0, _, _, _ => ⟨undefinedCoordinate, 0, 100⟩
  | fuel + 1, board, mark, depth =>
    let status := g.getStatus board mark
    let state :=
      if status.must_skip then
        (g.getAdversaryMark mark, depth - 1, { status with active := true })
      else (mark, depth, status)
    if state.2.2.active = true ∧ state.2.1 < (maxDepth : Int) then
      getTerminalMoveWith g selfMark
        (fun b m d => minimax g selfMark maxDepth fuel b m d)
        board state.1 (state.2.1 + 1)
    else
      let lastMoveCoefficient : Int :=
        if state.2.2.active = true then 1
        else 10 ^ (((maxDepth : Int) - state.2.1 + 1).toNat)
      ⟨undefinedCoordinate, g.getScore board selfMark * lastMoveCoefficient, 100⟩

/-- `AIPlayer._get_terminal_move` proper, with the recursive evaluator at
the given fuel. -/
def getTerminalMove (g : Game) (selfMark : Label) (maxDepth : Nat)
    (fuel : Nat) (board : Board) (playerMark : Label) (depth : Int) : Move :=
  getTerminalMoveWith g selfMark
    (fun b m d => minimax g selfMark maxDepth fuel b m d) board playerMark depth

/-- The TicTacToe variant's score, per the base game: `+1` when the side
is the sole winner, `−1` when there is a sole winner and it is the other
side, `0` otherwise.  (The checked-in `GameBase.get_score` dispatches to
the variant's winner computation, named `winners` in the checked-in
`tictactoe.py`.) -/
def gameBaseGetScore (b : Board) (player : Label) : Int :=
  let winners := ticTacToeWinners b
  if winners.length = 1 then
    if player ∈ winners then 1 else -1
  else 0

/-- `GameBase.step` / `place_mark` for the line-completion variant: label
an available (empty) cell without force. -/
def gameBaseStep (b : Board) (c : Coordinate) (player : Label) : Board :=
  if c ∈ availableSteps b then { b with cells := (labelCells b.cells c player false).2 }
  else b

/-- The TicTacToe `Game` instance consumed by `AIPlayer` (no
high-priority coordinates; status ignores the side to move). -/
def ticTacToeGame : Game where
  getStatus := fun b _ => ticTacToeGetStatus b
  getScore := gameBaseGetScore
  getAdversaryMark := getAdversaryLabel
  getAvailableMoves := fun b _ => availableSteps b
  placeMark := fun c mark b => gameBaseStep b c mark
  highPriorityCoordinates := []

/-- The Reversi `Game` instance consumed by `AIPlayer` (the checked-in
`reversi.py` defines no high-priority coordinates). -/
def reversiGame : Game where
  getStatus := reversiGetStatus
  getScore := reversiGetScore
  getAdversaryMark := getAdversaryLabel
  getAvailableMoves := reversiAvailableSteps
  placeMark := fun c mark b => (reversiStep b c mark).2
  highPriorityCoordinates := []

end ApGames

namespace ApGames

theorem fixHighPriority_length (g : Game) (selfMark : Label)
    (moves : List Move) (playerMark : Label) :
    (fixHighPriorityCoordinatesScore g selfMark moves playerMark).length
      = moves.length := by
  unfold fixHighPriorityCoordinatesScore
  split
  · split <;> rw [List.length_map]
  · rfl

theorem extractDesiredMoves_length_le (selfMark : Label) (moves : List Move)
    (playerMark : Label) :
    (extractDesiredMoves selfMark moves playerMark).length ≤ moves.length := by
  unfold extractDesiredMoves
  exact List.length_filter_le _ _

/-- **C1 (amended).**  (i) On a terminal board (status inactive, no
must-skip), minimax returns the searching player's own score scaled by
exactly `10^(max_depth − depth + 1)`, at percentage 100.  (ii) The scaled
terminal value `w·10^(max_depth−depth+1)` (exponent ≥ 1) strictly
outranks every heuristic leaf value `h < 10·w` — which covers every
heuristic value of the ±1-scored line-completion game, but *not*
Reversi's count-differential scores (see
`c1_heuristic_outranks_terminal_win`). -/
theorem c1_terminal_scaling :
    (∀ (g : Game) (selfMark : Label) (maxDepth fuel : Nat) (board : Board)
        (mark : Label) (depth : Int),
      (g.getStatus board mark).active = false →
      (g.getStatus board mark).must_skip = false →
      minimax g selfMark maxDepth (fuel + 1) board mark depth
        = ⟨undefinedCoordinate,
            g.getScore board selfMark *
              10 ^ (((maxDepth : Int) - depth + 1).toNat), 100⟩) ∧
    (∀ (w hval : Int) (k : Nat), 1 ≤ w → hval < 10 * w → 1 ≤ k →
      hval < w * 10 ^ k) := by
  constructor
  · intro g selfMark maxDepth fuel board mark depth hact hskip
    simp only [minimax, hskip]
    simp [hact]
  · intro w hval k hw hh hk
    have h10 : (10 : Int) ^ 1 ≤ 10 ^ k := pow_le_pow_right (by norm_num) hk
    calc hval < 10 * w := hh
      _ = w * 10 ^ 1 := by ring
      _ ≤ w * 10 ^ k := mul_le_mul_of_nonneg_left h10 (by linarith)

/-- Witness for C1: the full 3×3 Reversi board `"XXXXXOOOO"` is terminal
with score 1 for X, and minimax at `depth = max_depth = 4` returns
`1 × 10¹ = 10`; and `13 < 2 × 10¹`. -/
theorem c1_terminal_scaling_witness :
    ((reversiGetStatus (Board.mk 3
          (initCells 3 ["X", "X", "X", "X", "X", "O", "O", "O", "O"]) " " true 0)
        "X").active = false ∧
      (reversiGetStatus (Board.mk 3
          (initCells 3 ["X", "X", "X", "X", "X", "O", "O", "O", "O"]) " " true 0)
        "X").must_skip = false ∧
      minimax reversiGame "X" 4 1 (Board.mk 3
          (initCells 3 ["X", "X", "X", "X", "X", "O", "O", "O", "O"]) " " true 0)
        "X" 4 = ⟨undefinedCoordinate, 10, 100⟩) ∧
    ((1 : Int) ≤ 2 ∧ (13 : Int) < 10 * 2 ∧ 1 ≤ 1 ∧ (13 : Int) < 2 * 10 ^ 1) :=
  ⟨⟨by decide, by decide, by
      rw [c1_terminal_scaling.1 reversiGame "X" 4 0 (Board.mk 3
        (initCells 3 ["X", "X", "X", "X", "X", "O", "O", "O", "O"]) " " true 0)
        "X" 4 (by decide) (by decide)]
      decide⟩,
   by decide, by decide, by decide,
   c1_terminal_scaling.2 2 13 1 (by decide) (by decide) (by decide)⟩

/-- **C1, counterexample to the unamended claim.**  A terminal Reversi
win by one disc at `depth = max_depth = 4` is scaled to `1 × 10 = 10`,
while an *active* board at the same depth (a heuristic leaf) evaluates
unscaled to `14 − 1 = 13`: the scaled terminal win does **not** outrank
the heuristic leaf in the max aggregation, refuting "a terminal win at
any depth strictly outranks any non-terminal heuristic value". -/
theorem c1_heuristic_outranks_terminal_win :
    minimax reversiGame "X" 4 1 (Board.mk 3
        (initCells 3 ["X", "X", "X", "X", "X", "O", "O", "O", "O"]) " " true 0)
      "X" 4 = ⟨undefinedCoordinate, 10, 100⟩ ∧
    (reversiGetStatus (Board.mk 3
        (initCells 3 ["X", "X", "X", "X", "X", "O", "O", "O", "O"]) " " true 0)
      "X").active = false ∧
    reversiGetScore (Board.mk 3
        (initCells 3 ["X", "X", "X", "X", "X", "O", "O", "O", "O"]) " " true 0)
      "X" = 1 ∧
    (reversiGetStatus (Board.mk 4 (initCells 4
        ["X", "X", "X", "X", "X", "X", "X", "X",
         "X", "X", "X", "X", "X", "O", " ", "X"]) " " true 0) "X").active
      = true ∧
    minimax reversiGame "X" 4 1 (Board.mk 4 (initCells 4
        ["X", "X", "X", "X", "X", "X", "X", "X",
         "X", "X", "X", "X", "X", "O", " ", "X"]) " " true 0) "X" 4
      = ⟨undefinedCoordinate, 13, 100⟩ ∧
    ¬ ((10 : Int) > 13) := by
  refine ⟨by decide, by decide, by decide, by decide, by decide, by decide⟩

set_option maxRecDepth 100000

set_option maxHeartbeats 3200000

/-- **C7 (amended).**  At every branching node with a non-empty move
list, the returned move's potential is `int(100 × d/m)` as CPython
computes it in binary64 arithmetic (`pyIntPercent`), where `d` counts
the children kept by the min/max score extraction and `m` all children.
On the whole range of branching factors a board of at most 81 cells can
produce (`d ≤ m ≤ 81`) this equals the *truncated* quotient
`⌊100·d/m⌋` — an integer in `[0, 100]` — except at `(d, m) = (29, 50)`,
where the float product rounds one lower, to 57.  In particular for 2 of
3 tied children the potential is 66, not the claim's `round` value 67
(see `c7_potential_is_truncated_not_rounded`). -/
theorem c7_potential_formula :
    (∀ (g : Game) (selfMark : Label) (recurse : Board → Label → Int → Move)
        (board : Board) (playerMark : Label) (depth : Int),
      childMoves g recurse board playerMark depth ≠ [] →
      (getTerminalMoveWith g selfMark recurse board playerMark depth).percentage
        = ((pyIntPercent
            (extractDesiredMoves selfMark
              (fixHighPriorityCoordinatesScore g selfMark
                (childMoves g recurse board playerMark depth) playerMark)
              playerMark).length
            (childMoves g recurse board playerMark depth).length : Nat) : Int)) ∧
    (∀ m, m ≤ 81 → ∀ d, 1 ≤ d → d ≤ m →
      (pyIntPercent d m = if d = 29 ∧ m = 50 then 57 else 100 * d / m) ∧
      pyIntPercent d m ≤ 100) := by
  constructor
  · intro g selfMark recurse board playerMark depth hne
    unfold getTerminalMoveWith
    rw [if_neg hne]
  · have hbool : ((List.range 82).all fun m => (List.range (m + 1)).all fun d =>
        decide (pyIntPercent d m = if d = 29 ∧ m = 50 then 57 else 100 * d / m)
          && decide (pyIntPercent d m ≤ 100)) = true := by decide
    intro m hm d _ hdm
    have h1 := List.all_eq_true.mp hbool m (List.mem_range.mpr (by omega))
    have h2 := List.all_eq_true.mp h1 d (List.mem_range.mpr (by omega))
    rw [Bool.and_eq_true] at h2
    exact ⟨of_decide_eq_true h2.1, of_decide_eq_true h2.2⟩

/-- The claim's `round(100 × d / m)` (for `d = 2, m = 3` the value is not
a half, so every standard rounding gives 67). -/
def claimRoundPotential (d m : Nat) : Nat :=
  (2 * (100 * d) + m) / (2 * m)

/-- Witness for C7 at the 3×3 line-completion node `"XOXOXO   "` with X
to move (3 children, 2 tied at the maximum): the potential is
`int(100·2/3) = 66`; and the finite characterization at `(2, 3)` gives
the same value. -/
theorem c7_potential_formula_witness :
    (childMoves ticTacToeGame
        (fun b m d => minimax ticTacToeGame "X" 4 8 b m d)
        (Board.mk 3 (initCells 3 ["X", "O", "X", "O", "X", "O", " ", " ", " "])
          " " false 0) "X" 1 ≠ [] ∧
      (getTerminalMoveWith ticTacToeGame "X"
        (fun b m d => minimax ticTacToeGame "X" 4 8 b m d)
        (Board.mk 3 (initCells 3 ["X", "O", "X", "O", "X", "O", " ", " ", " "])
          " " false 0) "X" 1).percentage = 66) ∧
    ((3 ≤ 81 ∧ 1 ≤ 2 ∧ 2 ≤ 3) ∧ pyIntPercent 2 3 = 66 ∧ pyIntPercent 2 3 ≤ 100) :=
  ⟨⟨by decide, by
      rw [c7_potential_formula.1 ticTacToeGame "X"
        (fun b m d => minimax ticTacToeGame "X" 4 8 b m d)
        (Board.mk 3 (initCells 3 ["X", "O", "X", "O", "X", "O", " ", " ", " "])
          " " false 0) "X" 1 (by decide)]
      decide⟩,
   ⟨by decide, by decide, by decide⟩,
   (c7_potential_formula.2 3 (by decide) 2 (by decide) (by decide)).1.trans
     (by decide),
   (c7_potential_formula.2 3 (by decide) 2 (by decide) (by decide)).2⟩

/-- **C7, counterexample to the unamended claim.**  At the root of the
minimax search on the 3×3 line-completion board `"XOXOXO   "` (X to
move, `max_depth = 4`), the node has 3 children of which 2 survive the
score extraction; the returned potential is the truncated
`int(2/3 × 100) = 66`, whereas the claim's `round(100 × 2/3) = 67`. -/
theorem c7_potential_is_truncated_not_rounded :
    (minimax ticTacToeGame "X" 4 9
        (Board.mk 3 (initCells 3 ["X", "O", "X", "O", "X", "O", " ", " ", " "])
          " " false 0) "X" 0).percentage = 66 ∧
    (minimax ticTacToeGame "X" 4 9
        (Board.mk 3 (initCells 3 ["X", "O", "X", "O", "X", "O", " ", " ", " "])
          " " false 0) "X" 0).score = 10000 ∧
    (childMoves ticTacToeGame
        (fun b m d => minimax ticTacToeGame "X" 4 8 b m d)
        (Board.mk 3 (initCells 3 ["X", "O", "X", "O", "X", "O", " ", " ", " "])
          " " false 0) "X" 1).length = 3 ∧
    (extractDesiredMoves "X"
        (fixHighPriorityCoordinatesScore ticTacToeGame "X"
          (childMoves ticTacToeGame
            (fun b m d => minimax ticTacToeGame "X" 4 8 b m d)
            (Board.mk 3 (initCells 3 ["X", "O", "X", "O", "X", "O", " ", " ", " "])
              " " false 0) "X" 1) "X") "X").length = 2 ∧
    claimRoundPotential 2 3 = 67 ∧
    (66 : Int) ≠ 67 := by
  refine ⟨by decide, by decide, by decide, by decide, by decide, by decide⟩

end ApGames
